import Mathlib

/-!
Shallow embedding of the Communication Analysis Tool core
(modules/spam_detector.py, modules/sentiment_analyzer.py,
modules/style_analyzer.py, modules/metrics_calculator.py,
modules/report_generator.py), together with theorems settling the
frozen claims about it.

Real-number quantities computed by the Python code with floats are
modelled exactly over `ℚ`; Python `datetime` values are represented by
their point on the timeline in whole seconds (an `Int`), which is the
only information the code ever uses of them (ordering via `sort()` and
differences via `total_seconds()`).
-/

/-- The apostrophe character (codepoint 39), used by the style tokenizer. -/
def apos : Char := Char.ofNat 39

/-- Python `str.strip` whitespace: space, tab, newline, carriage return,
vertical tab, form feed (the ASCII whitespace stripped by `strip()`). -/
def pyIsSpace (c : Char) : Bool :=
  c = ' ' || c = Char.ofNat 9 || c = Char.ofNat 10 || c = Char.ofNat 13 ||
    c = Char.ofNat 11 || c = Char.ofNat 12

/-- Character-list version of Python `str.strip()`. -/
def pyStripL (l : List Char) : List Char :=
  ((l.dropWhile pyIsSpace).reverse.dropWhile pyIsSpace).reverse

/-- Python `str.strip()`. -/
def pyStrip (s : String) : String := String.mk (pyStripL s.data)

/-- ASCII lowercase letter test: the character class `[a-z]` of the
tokenizing regexes. -/
def isLowerAlpha (c : Char) : Bool := 'a' ≤ c && c ≤ 'z'

/-- Splits a character list into the maximal runs of characters satisfying
`p`, i.e. `re.findall` for a character-class-plus pattern.  `acc` holds the
(reversed) current run. -/
def tokAux (p : Char → Bool) : List Char → List Char → List String
  | [], acc => if acc = [] then [] else [String.mk acc.reverse]
  | c :: cs, acc =>
    if p c then tokAux p cs (c :: acc)
    else if acc = [] then tokAux p cs []
    else String.mk acc.reverse :: tokAux p cs []

/-- `SpamDetector._tokenize` / `SentimentAnalyzer._tokenize`:
`re.findall(r'[a-z]+', text.lower())`. -/
def tokenize (s : String) : List String :=
  tokAux isLowerAlpha (s.data.map Char.toLower) []

/-- `StyleAnalyzer._tokenize`: `re.findall(r"[a-z']+", text.lower())`
(letters and apostrophes, capturing contractions). -/
def tokenizeStyle (s : String) : List String :=
  tokAux (fun c => isLowerAlpha c || c = apos) (s.data.map Char.toLower) []

/-- The trained spam model of `SpamDetector`: the two per-class word-count
maps (Python `defaultdict(int)`, modelled as insertion-ordered association
lists), the two class message counts, and the vocabulary set `all_words`
(modelled as a duplicate-free insertion-ordered list). -/
structure SpamModel where
  ham_words : List (String × Nat)
  spam_words : List (String × Nat)
  ham_messages_count : Nat
  spam_messages_count : Nat
  all_words : List String
deriving DecidableEq

/-- Reading `counts[word]` from a `defaultdict(int)` without the insertion
side effect: the stored count, or 0 when absent. -/
def getCount (counts : List (String × Nat)) (w : String) : Nat :=
  match counts with
  | [] => 0
  | (k, v) :: rest => if k = w then v else getCount rest w

/-- Whether a key is present in an association list (Python `in dict`). -/
def hasKey (counts : List (String × Nat)) (w : String) : Bool :=
  match counts with
  | [] => false
  | (k, _) :: rest => if k = w then true else hasKey rest w

/-- `counts[word] += 1` on a `defaultdict(int)`: increment in place, or
insert the key with count 1 (Python dicts keep insertion order). -/
def bumpCount (counts : List (String × Nat)) (w : String) : List (String × Nat) :=
  match counts with
  | [] => [(w, 1)]
  | (k, v) :: rest => if k = w then (k, v + 1) :: rest else (k, v) :: bumpCount rest w

/-- `set.add`: insert a word into the vocabulary if not already present. -/
def insertWord (ws : List String) (w : String) : List String :=
  if w ∈ ws then ws else ws ++ [w]

/-- One training-loop iteration of `SpamDetector._train` for one word. -/
def trainWord (m : SpamModel) (is_spam : Bool) (w : String) : SpamModel :=
  ⟨if is_spam then m.ham_words else bumpCount m.ham_words w,
   if is_spam then bumpCount m.spam_words w else m.spam_words,
   m.ham_messages_count, m.spam_messages_count,
   insertWord m.all_words w⟩

/-- `SpamDetector._train`: tokenize the message, bump the per-word counts
of its class and the vocabulary, then bump the class message count. -/
def train (m : SpamModel) (message : String) (is_spam : Bool) : SpamModel :=
  let m1 := (tokenize message).foldl (fun acc w => trainWord acc is_spam w) m
  ⟨m1.ham_words, m1.spam_words,
   if is_spam then m1.ham_messages_count else m1.ham_messages_count + 1,
   if is_spam then m1.spam_messages_count + 1 else m1.spam_messages_count,
   m1.all_words⟩

/-- The model produced by `SpamDetector._load_and_train` when no training
data files exist: one built-in ham message and one built-in spam message. -/
def defaultModel : SpamModel :=
  train (train ⟨[], [], 0, 0, []⟩ "hello how are you" false) "buy now free money" true

/-- `SpamDetector._calculate_word_probability` (value only; the defaultdict
insertion side effect is modelled separately by `ddGet`):
Laplace-smoothed `(count_in_class[word] + 1) / (total_words_in_class +
vocab_size)` with the vocabulary size floored at 1. -/
def calculate_word_probability (m : SpamModel) (word : String)
    (category_word_counts : List (String × Nat)) : ℚ :=
  let vocab_size : Nat := if m.all_words.length > 0 then m.all_words.length else 1
  let total_words_in_category : Nat := (category_word_counts.map Prod.snd).sum
  ((getCount category_word_counts word : ℚ) + 1) /
    ((total_words_in_category : ℚ) + (vocab_size : ℚ))

/-- `SpamDetector.predict`, value semantics (True = SPAM, False = HAM). -/
def predict (m : SpamModel) (message : String) : Bool :=
  if pyStrip message = "" then false
  else
    let words := tokenize message
    if words = [] ∨ (m.ham_messages_count = 0 ∧ m.spam_messages_count = 0) then false
    else
      let total_messages := m.ham_messages_count + m.spam_messages_count
      if total_messages = 0 then false
      else
        let prior_ham : ℚ := (m.ham_messages_count : ℚ) / (total_messages : ℚ)
        let prior_spam : ℚ := (m.spam_messages_count : ℚ) / (total_messages : ℚ)
        let ham_likelihood : ℚ :=
          words.foldl (fun acc w => acc * calculate_word_probability m w m.ham_words) 1
        let spam_likelihood : ℚ :=
          words.foldl (fun acc w => acc * calculate_word_probability m w m.spam_words) 1
        let posterior_ham := ham_likelihood * prior_ham
        let posterior_spam := spam_likelihood * prior_spam
        if posterior_ham = 0 ∧ posterior_spam = 0 then false
        else decide (posterior_ham < posterior_spam)

/-- The unnormalized ham posterior of a token list: the ham prior
`ham_count / total_count` times the product of the smoothed per-word ham
probabilities (the quantity `posterior_ham` of `SpamDetector.predict`). -/
def posteriorHam (m : SpamModel) (words : List String) : ℚ :=
  ((m.ham_messages_count : ℚ) /
      ((m.ham_messages_count + m.spam_messages_count : Nat) : ℚ)) *
    (words.map (fun w => calculate_word_probability m w m.ham_words)).prod

/-- The unnormalized spam posterior of a token list (the quantity
`posterior_spam` of `SpamDetector.predict`). -/
def posteriorSpam (m : SpamModel) (words : List String) : ℚ :=
  ((m.spam_messages_count : ℚ) /
      ((m.ham_messages_count + m.spam_messages_count : Nat) : ℚ)) *
    (words.map (fun w => calculate_word_probability m w m.spam_words)).prod

/-- The prediction rule as the specification states it: HAM when
tokenization yields no words or the model has zero total training
messages, otherwise SPAM iff `posterior_spam > posterior_ham` strictly. -/
def specPredict (m : SpamModel) (message : String) : Bool :=
  let words := tokenize message
  if words = [] ∨ m.ham_messages_count + m.spam_messages_count = 0 then false
  else decide (posteriorHam m words < posteriorSpam m words)

/-- Reading `counts[word]` from a `defaultdict(int)` with Python's actual
semantics: a missing key is inserted with value 0 (at the end, in dict
insertion order) as a side effect of the read. -/
def ddGet (counts : List (String × Nat)) (w : String) : Nat × List (String × Nat) :=
  if hasKey counts w then (getCount counts w, counts)
  else (0, counts ++ [(w, 0)])

/-- `SpamDetector._calculate_word_probability` with the defaultdict
insertion side effect made explicit: returns the probability and the
possibly-extended count map. -/
def calculate_word_probability_st (m : SpamModel) (word : String)
    (category_word_counts : List (String × Nat)) : ℚ × List (String × Nat) :=
  let vocab_size : Nat := if m.all_words.length > 0 then m.all_words.length else 1
  let total_words_in_category : Nat := (category_word_counts.map Prod.snd).sum
  let r := ddGet category_word_counts word
  (((r.1 : ℚ) + 1) / ((total_words_in_category : ℚ) + (vocab_size : ℚ)), r.2)

/-- `SpamDetector.predict` with the model state threaded through, making
the `defaultdict` mutation of `ham_words` / `spam_words` observable. -/
def predictSt (m : SpamModel) (message : String) : Bool × SpamModel :=
  if pyStrip message = "" then (false, m)
  else
    let words := tokenize message
    if words = [] ∨ (m.ham_messages_count = 0 ∧ m.spam_messages_count = 0) then (false, m)
    else
      let total_messages := m.ham_messages_count + m.spam_messages_count
      if total_messages = 0 then (false, m)
      else
        let prior_ham : ℚ := (m.ham_messages_count : ℚ) / (total_messages : ℚ)
        let prior_spam : ℚ := (m.spam_messages_count : ℚ) / (total_messages : ℚ)
        let st := words.foldl
          (fun (acc : ℚ × ℚ × List (String × Nat) × List (String × Nat)) w =>
            let rh := calculate_word_probability_st m w acc.2.2.1
            let rs := calculate_word_probability_st m w acc.2.2.2
            (acc.1 * rh.1, acc.2.1 * rs.1, rh.2, rs.2))
          (1, 1, m.ham_words, m.spam_words)
        let posterior_ham := st.1 * prior_ham
        let posterior_spam := st.2.1 * prior_spam
        let m2 : SpamModel := ⟨st.2.2.1, st.2.2.2, m.ham_messages_count,
          m.spam_messages_count, m.all_words⟩
        (if posterior_ham = 0 ∧ posterior_spam = 0 then false
         else decide (posterior_ham < posterior_spam), m2)

/-- The fixed positive-word lexicon of `SentimentAnalyzer`. -/
def positive_words : List String :=
  ["good", "great", "excellent", "wonderful", "amazing", "happy", "joy",
   "love", "fantastic", "awesome", "brilliant", "positive", "super",
   "success", "benefit", "pleasure", "like", "best", "perfect", "nice",
   "beautiful", "friendly", "kind", "optimistic", "glad", "delight", "cheer",
   "agree", "fine", "ok", "okay", "cool", "yeah"]

/-- The fixed negative-word lexicon of `SentimentAnalyzer` ("can't" and
"don't" contain apostophes and are reconstructed around `apos`; note they
can never match a token of `tokenize`, which drops apostrophes, exactly as
in the Python code). -/
def negative_words : List String :=
  ["bad", "terrible", "horrible", "awful", "sad", "unhappy", "hate",
   "poor", "negative", "fail", "problem", "issue", "worry", "stress",
   "difficult", "worst", "ugly", "dislike", "error", "compromise", "urgent",
   "spam", "scam", "fraud", "danger", "risk", "threat", "warning", "suspicious",
   "not", "no", "never",
   "can" ++ String.mk [apos] ++ "t", "don" ++ String.mk [apos] ++ "t"]

/-- `SentimentAnalyzer.analyze`: count lexicon hits (negative hits only
among words that are not positive hits, per the `elif`) and compare. -/
def sentimentAnalyze (text : String) : String :=
  if pyStrip text = "" then "neutral"
  else
    let words := tokenize text
    let positive_count := words.countP (fun w => w ∈ positive_words)
    let negative_count := words.countP (fun w => ¬ w ∈ positive_words ∧ w ∈ negative_words)
    if negative_count < positive_count then "positive"
    else if positive_count < negative_count then "negative"
    else "neutral"

/-- The fixed formal-keyword set of `StyleAnalyzer` (the source lists some
words twice; set semantics make this irrelevant and membership below is
what matters). -/
def formal_keywords : List String :=
  ["furthermore", "moreover", "hence", "thus", "consequently", "therefore",
   "sincerely", "regards", "cordially", "to whom it may concern", "pursuant to",
   "in accordance with", "commence", "terminate", "endeavor", "facilitate",
   "utilize", "prioritize", "hereby", "herein", "thereby", "therein", "herewith",
   "acquisition", "disbursement", "ameliorate", "concerning", "regarding",
   "notwithstanding", "respectfully", "additionally", "nevertheless",
   "subsequently", "heretofore", "hereunder", "thereafter", "thereupon",
   "whereby", "whereas", "inquire", "advise", "confirm", "request", "duly",
   "thereof", "accordingly", "according", "wherefore", "whereupon"]

/-- The fixed informal-keyword set of `StyleAnalyzer`. -/
def informal_keywords : List String :=
  ["hey", "hi", "lol", "brb", "btw", "gonna", "wanna", "lemme",
   "y" ++ String.mk [apos] ++ "all",
   "asap", "imo", "fyi", "kinda", "sorta", "chill", "dude", "bro", "yeah",
   "nah", "awesome", "cool", "super", "greetings", "whats up", "cya", "np", "omg",
   "tho", "dunno", "nite", "pls", "thx", "u", "ur", "r", "lmao", "rofl",
   "gotta", "k", "cuz", "ya", "coz", "sup", "yo"]

/-- Builds a contraction string `pre'suf` without apostrophe literals. -/
def ctr (pre suf : String) : String := pre ++ String.mk [apos] ++ suf

/-- The fixed contraction set of `StyleAnalyzer`. -/
def contractions : List String :=
  [ctr "i" "m", ctr "you" "re", ctr "he" "s", ctr "she" "s", ctr "it" "s",
   ctr "we" "re", ctr "they" "re", ctr "i" "ve", ctr "you" "ve", ctr "we" "ve",
   ctr "they" "ve", ctr "i" "d", ctr "you" "d", ctr "he" "d", ctr "she" "d",
   ctr "we" "d", ctr "they" "d", ctr "i" "ll", ctr "you" "ll", ctr "he" "ll",
   ctr "she" "ll", ctr "it" "ll", ctr "we" "ll", ctr "they" "ll",
   ctr "isn" "t", ctr "aren" "t", ctr "wasn" "t", ctr "weren" "t",
   ctr "hasn" "t", ctr "haven" "t", ctr "hadn" "t", ctr "won" "t",
   ctr "wouldn" "t", ctr "don" "t", ctr "doesn" "t", ctr "didn" "t",
   ctr "can" "t", ctr "couldn" "t", ctr "shouldn" "t", ctr "mightn" "t",
   ctr "mustn" "t", ctr "shan" "t", ctr "needn" "t"]

/-- Python `round(x, 2)`'s rounding of a scaled value to an integer:
round half to even (banker's rounding), modelled exactly on `ℚ`. -/
def roundHalfEven (q : ℚ) : ℤ :=
  let f := ⌊q⌋
  let r := q - (f : ℚ)
  if r < 1/2 then f else if 1/2 < r then f + 1 else if f % 2 = 0 then f else f + 1

/-- Python `round(x, 2)`: round to 2 decimal places, half to even. -/
def round2 (q : ℚ) : ℚ := ((roundHalfEven (q * 100) : ℤ) : ℚ) / 100

/-- The result of `StyleAnalyzer.analyze`: the "Style Score" and
"Formality" entries of the returned dictionary. -/
structure StyleResult where
  styleScore : ℚ
  formality : String
deriving DecidableEq

/-- `StyleAnalyzer.analyze`: keyword/contraction counting (`elif` between
formal and informal, contractions counted independently), the weighted
formality signal, the threshold classification, and the clamped, rescaled,
rounded, re-clamped 0-100 style score. -/
def styleAnalyze (text : String) : StyleResult :=
  if pyStrip text = "" then ⟨50, "neutral"⟩
  else
    let words := tokenizeStyle text
    if words = [] then ⟨50, "neutral"⟩
    else
      let formal_count := words.countP (fun w => w ∈ formal_keywords)
      let informal_count := words.countP
        (fun w => ¬ w ∈ formal_keywords ∧ w ∈ informal_keywords)
      let contraction_count := words.countP (fun w => w ∈ contractions)
      let total_words := words.length
      let formality_score : ℚ :=
        ((formal_count : ℚ) * 4 - (informal_count : ℚ) * (3/2)
          - (contraction_count : ℚ) * 3) / (total_words : ℚ)
      let formality :=
        if 1/10 < formality_score then "formal"
        else if formality_score < -(3/20) then "informal"
        else "neutral"
      let clamped_formality_score := max (-(7/10)) (min (7/10) formality_score)
      let style_score := round2 ((clamped_formality_score + 7/10) / (14/10) * 100)
      let style_score := max 0 (min 100 style_score)
      ⟨style_score, formality⟩

/-- A timestamp-like value stored under the "Timestamp" key of a record
reaching the metrics calculator: either an actual `datetime` (represented
by its timeline point in seconds) or a string. -/
inductive TsVal where
  | dt (secs : Int)
  | strv (s : String)
deriving DecidableEq

/-- A record of the enriched-record batch consumed by the metrics
calculator, holding the fields the two aggregator functions read.  A
missing dictionary key is `none`; "Style Score" is `none` also when the
stored value is not numeric (the only distinction `isinstance(int, float)`
makes). -/
structure Entry where
  error : Option String
  sender : Option String
  spam : Option String
  sentiment : Option String
  styleScore : Option ℚ
  formality : Option String
  convoId : Option String
  timestamp : Option TsVal
deriving DecidableEq

/-- Python `str.lower()` (per-character lowercasing). -/
def lowerStr (s : String) : String := String.mk (s.data.map Char.toLower)

/-- A Python `datetime` value (validated calendar fields, no microseconds:
every timestamp this program constructs has whole-second resolution). -/
structure Datetime where
  year : Nat
  month : Nat
  day : Nat
  hour : Nat
  minute : Nat
  second : Nat
deriving DecidableEq

/-- Gregorian leap-year test. -/
def isLeap (y : Nat) : Bool := y % 4 = 0 && (y % 100 ≠ 0 || y % 400 = 0)

/-- Number of days in a month, as validated by the `datetime` constructor. -/
def daysInMonth (y m : Nat) : Nat :=
  if m = 2 then (if isLeap y then 29 else 28)
  else if m = 4 ∨ m = 6 ∨ m = 9 ∨ m = 11 then 30 else 31

/-- Days between 1970-01-01 and year/month/day (civil-from-days inverse,
standard era-based computation; all intermediate values are nonnegative
for the years ≥ 1 that `datetime` admits). -/
def daysFromCivil (y m d : Int) : Int :=
  let yy := if m ≤ 2 then y - 1 else y
  let era := yy / 400
  let yoe := yy - era * 400
  let mp := if 2 < m then m - 3 else m + 9
  let doy := (153 * mp + 2) / 5 + d - 1
  let doe := yoe * 365 + yoe / 4 - yoe / 100 + doy
  era * 146097 + doe - 719468

/-- The timeline point of a `datetime` in seconds: the representation under
which `datetime` comparison and subtraction (`total_seconds()`) are
computed. -/
def Datetime.toSecs (d : Datetime) : Int :=
  daysFromCivil (d.year : Int) (d.month : Int) (d.day : Int) * 86400 +
    (d.hour : Int) * 3600 + (d.minute : Int) * 60 + (d.second : Int)

/-- One token of a `strptime` format string: a literal character, a
whitespace run, or one of the directives %Y %y %m %d %H %I %M %S %p. -/
inductive FTok where
  | lit (c : Char)
  | ws
  | dirY
  | diry
  | dirm
  | dird
  | dirH
  | dirI
  | dirM
  | dirS
  | dirp
deriving DecidableEq

/-- The field assignments accumulated while matching a format. -/
structure TParts where
  y4 : Option Nat
  y2 : Option Nat
  mo : Option Nat
  dy : Option Nat
  hr : Option Nat
  hr12 : Option Nat
  mi : Option Nat
  se : Option Nat
  ampm : Option Nat
deriving DecidableEq

/-- The empty assignment. -/
def TParts.empty : TParts := ⟨none, none, none, none, none, none, none, none, none⟩

/-- Record the value matched by a directive. -/
def setTok (tp : TParts) (t : FTok) (v : Nat) : TParts :=
  match t with
  | FTok.dirY => ⟨some v, tp.y2, tp.mo, tp.dy, tp.hr, tp.hr12, tp.mi, tp.se, tp.ampm⟩
  | FTok.diry => ⟨tp.y4, some v, tp.mo, tp.dy, tp.hr, tp.hr12, tp.mi, tp.se, tp.ampm⟩
  | FTok.dirm => ⟨tp.y4, tp.y2, some v, tp.dy, tp.hr, tp.hr12, tp.mi, tp.se, tp.ampm⟩
  | FTok.dird => ⟨tp.y4, tp.y2, tp.mo, some v, tp.hr, tp.hr12, tp.mi, tp.se, tp.ampm⟩
  | FTok.dirH => ⟨tp.y4, tp.y2, tp.mo, tp.dy, some v, tp.hr12, tp.mi, tp.se, tp.ampm⟩
  | FTok.dirI => ⟨tp.y4, tp.y2, tp.mo, tp.dy, tp.hr, some v, tp.mi, tp.se, tp.ampm⟩
  | FTok.dirM => ⟨tp.y4, tp.y2, tp.mo, tp.dy, tp.hr, tp.hr12, some v, tp.se, tp.ampm⟩
  | FTok.dirS => ⟨tp.y4, tp.y2, tp.mo, tp.dy, tp.hr, tp.hr12, tp.mi, some v, tp.ampm⟩
  | FTok.dirp => ⟨tp.y4, tp.y2, tp.mo, tp.dy, tp.hr, tp.hr12, tp.mi, tp.se, some v⟩
  | _ => tp

/-- Numeric value of a digit character. -/
def dval (c : Char) : Nat := c.toNat - '0'.toNat

/-- Ordered candidates of a 1-2 digit `strptime` directive, reproducing the
preference order of the alternation in `_strptime`'s regular expression:
the two-digit branch (admitting scaled values `lo2..hi2`) before the
one-digit branch (admitting `lo1..hi1`). -/
def numCands (lo2 hi2 lo1 hi1 : Nat) (cs : List Char) : List (Nat × List Char) :=
  (match cs with
   | c1 :: c2 :: rest =>
     if c1.isDigit ∧ c2.isDigit ∧ lo2 ≤ 10 * dval c1 + dval c2 ∧ 10 * dval c1 + dval c2 ≤ hi2
     then [(10 * dval c1 + dval c2, rest)] else []
   | _ => []) ++
  (match cs with
   | c1 :: rest =>
     if c1.isDigit ∧ lo1 ≤ dval c1 ∧ dval c1 ≤ hi1 then [(dval c1, rest)] else []
   | _ => [])

/-- Two-digit value range of each numeric directive (the two-digit branch
of its regex alternation: `%m` 01-12, `%d` 01-31, `%H` 00-23, `%I` 01-12,
`%M` 00-59, `%S` 00-61). -/
def nlo2 : FTok → Nat
  | FTok.dirm => 1
  | FTok.dird => 1
  | FTok.dirI => 1
  | _ => 0

/-- Upper bound of the two-digit branch. -/
def nhi2 : FTok → Nat
  | FTok.dirm => 12
  | FTok.dird => 31
  | FTok.dirH => 23
  | FTok.dirI => 12
  | FTok.dirM => 59
  | FTok.dirS => 61
  | _ => 0

/-- Lower bound of the one-digit branch (`[1-9]` for %m/%d/%I, `\d` else). -/
def nlo1 : FTok → Nat
  | FTok.dirm => 1
  | FTok.dird => 1
  | FTok.dirI => 1
  | _ => 0

/-- Backtracking matcher for a `strptime` format against an input, with the
regex semantics of CPython's `_strptime`: directives try their two-digit
candidate before their one-digit candidate; a whitespace run in the format
matches a maximal nonempty whitespace run of the input (in the formats used
here every whitespace token is followed by a digit or am/pm directive, so
the maximal run is the only candidate the regex could keep); the whole
input must be consumed. -/
def matchToks : List FTok → List Char → TParts → Option TParts
  | [], cs, tp => if cs = [] then some tp else none
  | FTok.lit c :: ts, cs, tp =>
    (match cs with
     | d :: cs2 => if d = c then matchToks ts cs2 tp else none
     | [] => none)
  | FTok.ws :: ts, cs, tp =>
    (match cs with
     | c :: _ => if pyIsSpace c then matchToks ts (cs.dropWhile pyIsSpace) tp else none
     | [] => none)
  | FTok.dirY :: ts, cs, tp =>
    (match cs with
     | a :: b :: c :: d :: rest =>
       if a.isDigit ∧ b.isDigit ∧ c.isDigit ∧ d.isDigit then
         matchToks ts rest
           (setTok tp FTok.dirY (1000 * dval a + 100 * dval b + 10 * dval c + dval d))
       else none
     | _ => none)
  | FTok.diry :: ts, cs, tp =>
    (match cs with
     | a :: b :: rest =>
       if a.isDigit ∧ b.isDigit then
         matchToks ts rest (setTok tp FTok.diry (10 * dval a + dval b))
       else none
     | _ => none)
  | FTok.dirp :: ts, cs, tp =>
    (match cs with
     | a :: b :: rest =>
       if (Char.toLower a = 'a' ∨ Char.toLower a = 'p') ∧ Char.toLower b = 'm' then
         matchToks ts rest (setTok tp FTok.dirp (if Char.toLower a = 'a' then 0 else 1))
       else none
     | _ => none)
  | t :: ts, cs, tp =>
    (match numCands (nlo2 t) (nhi2 t) (nlo1 t) 9 cs with
     | [] => none
     | [(v, rest)] => matchToks ts rest (setTok tp t v)
     | (v1, r1) :: (v2, r2) :: _ =>
       match matchToks ts r1 (setTok tp t v1) with
       | some tp2 => some tp2
       | none => matchToks ts r2 (setTok tp t v2))

/-- Assemble and validate a `datetime` from matched directive values, with
CPython's `%y` century rule and `%I`/`%p` hour conversion, and the range
validation the `datetime` constructor performs (year 1-9999, day within
the month, second ≤ 59). -/
def finishParse (tp : TParts) : Option Datetime :=
  let yearO : Option Nat :=
    match tp.y4 with
    | some v => some v
    | none =>
      match tp.y2 with
      | some v => some (if v < 69 then v + 2000 else v + 1900)
      | none => none
  let hourO : Option Nat :=
    match tp.hr with
    | some h => some h
    | none =>
      match tp.hr12, tp.ampm with
      | some i, some ap =>
        some (if ap = 0 then (if i = 12 then 0 else i) else (if i = 12 then 12 else i + 12))
      | some i, none => some i
      | _, _ => none
  match yearO, tp.mo, tp.dy, hourO with
  | some y, some mo, some dy, some h =>
    let mi := tp.mi.getD 0
    let se := tp.se.getD 0
    if 1 ≤ y ∧ y ≤ 9999 ∧ 1 ≤ dy ∧ dy ≤ daysInMonth y mo ∧ se ≤ 59 then
      some ⟨y, mo, dy, h, mi, se⟩
    else none
  | _, _, _, _ => none

/-- `"%Y-%m-%d %H:%M:%S"`. -/
def fmtEmailTs : List FTok :=
  [FTok.dirY, FTok.lit '-', FTok.dirm, FTok.lit '-', FTok.dird, FTok.ws,
   FTok.dirH, FTok.lit ':', FTok.dirM, FTok.lit ':', FTok.dirS]

/-- `"%m/%d/%y %I:%M %p"`. -/
def fmtWa12y2 : List FTok :=
  [FTok.dirm, FTok.lit '/', FTok.dird, FTok.lit '/', FTok.diry, FTok.ws,
   FTok.dirI, FTok.lit ':', FTok.dirM, FTok.ws, FTok.dirp]

/-- `"%m/%d/%Y %I:%M %p"`. -/
def fmtWa12y4 : List FTok :=
  [FTok.dirm, FTok.lit '/', FTok.dird, FTok.lit '/', FTok.dirY, FTok.ws,
   FTok.dirI, FTok.lit ':', FTok.dirM, FTok.ws, FTok.dirp]

/-- `"%m/%d/%y %H:%M"`. -/
def fmtWa24y2 : List FTok :=
  [FTok.dirm, FTok.lit '/', FTok.dird, FTok.lit '/', FTok.diry, FTok.ws,
   FTok.dirH, FTok.lit ':', FTok.dirM]

/-- `"%m/%d/%Y %H:%M"`. -/
def fmtWa24y4 : List FTok :=
  [FTok.dirm, FTok.lit '/', FTok.dird, FTok.lit '/', FTok.dirY, FTok.ws,
   FTok.dirH, FTok.lit ':', FTok.dirM]

/-- `datetime.strptime(s, fmt)`, `None` on `ValueError`. -/
def strptime (fmt : List FTok) (s : String) : Option Datetime :=
  match matchToks fmt s.data TParts.empty with
  | some tp => finishParse tp
  | none => none

/-- The WhatsApp timestamp fallback chain of `_parse_whatsapp_content`:
the four formats tried in order, first success wins. -/
def parseWaTimestamp (s : String) : Option Datetime :=
  match strptime fmtWa12y2 s with
  | some d => some d
  | none =>
    match strptime fmtWa12y4 s with
    | some d => some d
    | none =>
      match strptime fmtWa24y2 s with
      | some d => some d
      | none => strptime fmtWa24y4 s

/-- The defensive re-parsing chain of `calculate_engagement_metrics` for
string timestamps: the email format first, then the four WhatsApp formats. -/
def parseMetricsTimestamp (s : String) : Option Datetime :=
  match strptime fmtEmailTs s with
  | some d => some d
  | none => parseWaTimestamp s

/-- The recognized formality tag of a record: `some` of the lowercased
"Formality" value when that value is truthy and its lowercase form is one
of the `formality_counts` keys, else `none` (the record contributes to no
formality bucket). -/
def formTag (e : Entry) : Option String :=
  match e.formality with
  | some f =>
    if f ≠ "" ∧ (lowerStr f = "formal" ∨ lowerStr f = "informal" ∨ lowerStr f = "neutral")
    then some (lowerStr f) else none
  | none => none

/-- `round(sum(scores)/len(scores), 2) if scores else 0.0`. -/
def avgOf (scores : List ℚ) : ℚ :=
  if scores = [] then 0 else round2 (scores.sum / (scores.length : ℚ))

/-- The running counters of the `calculate_content_metrics` loop. -/
structure CState where
  total : Nat
  spamSPAM : Nat
  spamHAM : Nat
  sentPositive : Nat
  sentNeutral : Nat
  sentNegative : Nat
  styleScores : List ℚ
  formFormal : Nat
  formInformal : Nat
  formNeutral : Nat
deriving DecidableEq

/-- One iteration of the `calculate_content_metrics` loop: skip error
records; otherwise count the record and tally each recognized label. -/
def contentStep (s : CState) (e : Entry) : CState :=
  if e.error.isSome then s
  else
    ⟨s.total + 1,
     s.spamSPAM + (if e.spam = some "SPAM" then 1 else 0),
     s.spamHAM + (if e.spam = some "HAM" then 1 else 0),
     s.sentPositive + (if e.sentiment = some "positive" then 1 else 0),
     s.sentNeutral + (if e.sentiment = some "neutral" then 1 else 0),
     s.sentNegative + (if e.sentiment = some "negative" then 1 else 0),
     s.styleScores ++ (match e.styleScore with | some q => [q] | none => []),
     s.formFormal + (if formTag e = some "formal" then 1 else 0),
     s.formInformal + (if formTag e = some "informal" then 1 else 0),
     s.formNeutral + (if formTag e = some "neutral" then 1 else 0)⟩

/-- The dictionary returned by `calculate_content_metrics`. -/
structure ContentMetrics where
  totalMessages : Nat
  spamSPAM : Nat
  spamHAM : Nat
  sentPositive : Nat
  sentNeutral : Nat
  sentNegative : Nat
  averageStyleScore : ℚ
  formFormal : Nat
  formInformal : Nat
  formNeutral : Nat
deriving DecidableEq

/-- `calculate_content_metrics`. -/
def calculate_content_metrics (results : List Entry) : ContentMetrics :=
  let s := results.foldl contentStep ⟨0, 0, 0, 0, 0, 0, [], 0, 0, 0⟩
  ⟨s.total, s.spamSPAM, s.spamHAM, s.sentPositive, s.sentNeutral, s.sentNegative,
   avgOf s.styleScores, s.formFormal, s.formInformal, s.formNeutral⟩

/-- Appends a timestamp to a conversation's list in the insertion-ordered
`conversations_times` dictionary (`defaultdict(list)`). -/
def addTime (l : List (String × List Int)) (k : String) (t : Int) : List (String × List Int) :=
  match l with
  | [] => [(k, [t])]
  | (k2, v) :: rest => if k2 = k then (k2, v ++ [t]) :: rest else (k2, v) :: addTime rest k t

/-- The `time_obj` computation of `calculate_engagement_metrics`: a
`datetime` value is used as-is; a string is re-parsed through the fallback
chain; failure yields `None`. -/
def timeObjOf (tv : TsVal) : Option Int :=
  match tv with
  | TsVal.dt t => some t
  | TsVal.strv s =>
    match parseMetricsTimestamp s with
    | some d => some d.toSecs
    | none => none

/-- Python truthiness of a "Timestamp" value: a `datetime` is always
truthy, a string is truthy iff nonempty. -/
def tsTruthy (tv : TsVal) : Bool :=
  match tv with
  | TsVal.dt _ => true
  | TsVal.strv s => s ≠ ""

/-- The running state of the `calculate_engagement_metrics` loop. -/
structure EState where
  senderFreq : List (String × Nat)
  convTimes : List (String × List Int)
  styleScores : List ℚ
  formFormal : Nat
  formInformal : Nat
  formNeutral : Nat
deriving DecidableEq

/-- The sender-frequency update of one engagement-loop iteration. -/
def engSender (st : EState) (e : Entry) : EState :=
  match e.sender with
  | some x =>
    if x ≠ "" then
      ⟨bumpCount st.senderFreq x, st.convTimes, st.styleScores,
       st.formFormal, st.formInformal, st.formNeutral⟩
    else st
  | none => st

/-- The style-score collection of one engagement-loop iteration. -/
def engStyle (st : EState) (e : Entry) : EState :=
  match e.styleScore with
  | some q =>
    ⟨st.senderFreq, st.convTimes, st.styleScores ++ [q],
     st.formFormal, st.formInformal, st.formNeutral⟩
  | none => st

/-- The formality tally of one engagement-loop iteration. -/
def engForm (st : EState) (e : Entry) : EState :=
  ⟨st.senderFreq, st.convTimes, st.styleScores,
   st.formFormal + (if formTag e = some "formal" then 1 else 0),
   st.formInformal + (if formTag e = some "informal" then 1 else 0),
   st.formNeutral + (if formTag e = some "neutral" then 1 else 0)⟩

/-- The conversation-times collection of one engagement-loop iteration:
requires a truthy conversation id and a truthy timestamp, and a timestamp
value the fallback chain can interpret. -/
def engConv (st : EState) (e : Entry) : EState :=
  match e.convoId, e.timestamp with
  | some cid, some tv =>
    if cid ≠ "" ∧ tsTruthy tv then
      match timeObjOf tv with
      | some t =>
        ⟨st.senderFreq, addTime st.convTimes cid t, st.styleScores,
         st.formFormal, st.formInformal, st.formNeutral⟩
      | none => st
    else st
  | _, _ => st

/-- One iteration of the `calculate_engagement_metrics` loop. -/
def engStep (st : EState) (e : Entry) : EState :=
  if e.error.isSome then st
  else engConv (engForm (engStyle (engSender st e) e) e) e

/-- Ascending insertion into a sorted list of timeline points. -/
def insertSorted (x : Int) : List Int → List Int
  | [] => [x]
  | y :: ys => if x ≤ y then x :: y :: ys else y :: insertSorted x ys

/-- `times.sort()`: the ascending sort of a list of timeline points
(insertion sort; the sorted permutation of `Int` values is unique). -/
def sortTimes (l : List Int) : List Int := l.foldr insertSorted []

/-- Consecutive differences `(times[i] - times[i-1]).total_seconds()`. -/
def consecDiffs : List Int → List ℚ
  | a :: b :: rest => ((b - a : Int) : ℚ) :: consecDiffs (b :: rest)
  | _ => []

/-- The gaps contributed by one conversation: none unless it collected at
least two timestamps, else the consecutive differences of the sorted
timestamps. -/
def gapsOf (times : List Int) : List ℚ :=
  if 2 ≤ times.length then consecDiffs (sortTimes times) else []

/-- The full `response_gaps` list: each conversation's gaps, in dictionary
insertion order. -/
def responseGapsOf (ct : List (String × List Int)) : List ℚ :=
  (ct.map (fun kv => gapsOf kv.2)).flatten

/-- The clarity suggestion text. -/
def sugClarity : String := "Improve clarity and structure in messages."

/-- The formality suggestion text. -/
def sugFormality : String := "Consider using more formal phrasing for professional contexts."

/-- The promptness suggestion text. -/
def sugPromptness : String :=
  "Respond to messages more promptly to improve conversation engagement."

/-- The dictionary returned by `calculate_engagement_metrics`. -/
structure EngagementMetrics where
  topSenders : List (String × Nat)
  averageResponseTime : Option ℚ
  suggestions : List String
  formFormal : Nat
  formInformal : Nat
  formNeutral : Nat
deriving DecidableEq

/-- `calculate_engagement_metrics`. -/
def calculate_engagement_metrics (results : List Entry) : EngagementMetrics :=
  let st := results.foldl engStep ⟨[], [], [], 0, 0, 0⟩
  let response_gaps := responseGapsOf st.convTimes
  let avg_response_time : Option ℚ :=
    if response_gaps = [] then none
    else some (round2 (response_gaps.sum / (response_gaps.length : ℚ)))
  let avg_style_score : ℚ := avgOf st.styleScores
  let s1 := if avg_style_score < 40 then [sugClarity] else []
  let total_non_neutral := st.formFormal + st.formInformal
  let s2 :=
    if 0 < total_non_neutral ∧ (st.formFormal : ℚ) * (3/2) < (st.formInformal : ℚ)
    then [sugFormality] else []
  let s3 :=
    match avg_response_time with
    | some t => if (3600 : ℚ) < t then [sugPromptness] else []
    | none => []
  ⟨st.senderFreq, avg_response_time, s1 ++ s2 ++ s3,
   st.formFormal, st.formInformal, st.formNeutral⟩

/-- Python `str.splitlines()` over the line endings this program can
encounter (`\n`, `\r\n`, `\r`): no trailing empty line after a final
terminator, and `""` yields `[]`. -/
def pySplitlinesAux : List Char → List Char → List String
  | [], acc => if acc = [] then [] else [String.mk acc.reverse]
  | [c], acc =>
    if c = Char.ofNat 13 ∨ c = Char.ofNat 10 then [String.mk acc.reverse]
    else [String.mk (c :: acc).reverse]
  | c :: d :: cs, acc =>
    if c = Char.ofNat 13 then
      if d = Char.ofNat 10 then String.mk acc.reverse :: pySplitlinesAux cs []
      else String.mk acc.reverse :: pySplitlinesAux (d :: cs) []
    else if c = Char.ofNat 10 then String.mk acc.reverse :: pySplitlinesAux (d :: cs) []
    else pySplitlinesAux (d :: cs) (c :: acc)

/-- Python `str.splitlines()`. -/
def pySplitlines (s : String) : List String := pySplitlinesAux s.data []

/-- `os.path.basename`: the part of a path after its last slash. -/
def basename (s : String) : String :=
  String.mk (s.data.foldl (fun acc c => if c = '/' then [] else acc ++ [c]) [])

/-- `.replace('.', '_')` on a file name. -/
def replaceDot (s : String) : String :=
  String.mk (s.data.map (fun c => if c = '.' then '_' else c))

/-- Decimal rendering of a line number (`f"..._line_{line_num}"`). -/
def natStr (n : Nat) : String := Nat.repr n

/-- A record emitted by `_parse_whatsapp_content`: the keys of the message
dictionary (timestamp either a parsed `datetime` or `None`). -/
structure WaMsg where
  source : String
  messageId : String
  sender : String
  conversationId : String
  timestamp : Option Datetime
  subject : String
  message : String
deriving DecidableEq

/-- Matcher for the WhatsApp line pattern
`^(\d{1,2}/\d{1,2}/\d{2,4}),\s*(\d{1,2}:\d{2}(?:\s*(?i:am|pm))?)\s*-\s*([^:]+?):\s*(.*)$`,
returning the four capture groups (date, time, sender, message).  The
nondeterminism of the regex is resolved exactly as backtracking would:
each `\d{a,b}` run is followed by a non-digit literal, so only the maximal
digit run (of admissible length) can match; each `\s*` is followed by a
non-whitespace requirement, so only the maximal whitespace run can match,
except before the sender, where the regex gives one whitespace character
back to the mandatory `[^:]+?` when the run reaches the colon; the
optional am/pm group cannot both succeed and lead to overall failure where
skipping it would succeed, so it commits. -/
def matchWaLine (cs : List Char) : Option (List Char × List Char × List Char × List Char) :=
  let p1 := cs.span Char.isDigit
  if 1 ≤ p1.1.length ∧ p1.1.length ≤ 2 then
    match p1.2 with
    | '/' :: r2 =>
      let p2 := r2.span Char.isDigit
      if 1 ≤ p2.1.length ∧ p2.1.length ≤ 2 then
        match p2.2 with
        | '/' :: r4 =>
          let p3 := r4.span Char.isDigit
          if 2 ≤ p3.1.length ∧ p3.1.length ≤ 4 then
            match p3.2 with
            | ',' :: r6 =>
              let r7 := r6.dropWhile pyIsSpace
              let p4 := r7.span Char.isDigit
              if 1 ≤ p4.1.length ∧ p4.1.length ≤ 2 then
                match p4.2 with
                | ':' :: m1 :: m2 :: r10 =>
                  if m1.isDigit ∧ m2.isDigit then
                    let wsr := r10.takeWhile pyIsSpace
                    let r11 := r10.dropWhile pyIsSpace
                    let amRes : Option (List Char × List Char) :=
                      match r11 with
                      | a :: b :: r12 =>
                        if (Char.toLower a = 'a' ∨ Char.toLower a = 'p') ∧ Char.toLower b = 'm'
                        then some (wsr ++ [a, b], r12) else none
                      | _ => none
                    let timeCap := p4.1 ++ ':' :: m1 :: m2 ::
                      (match amRes with | some pr => pr.1 | none => [])
                    let r13 := match amRes with | some pr => pr.2 | none => r10
                    match r13.dropWhile pyIsSpace with
                    | '-' :: r15 =>
                      let pre := r15.takeWhile (fun c => ¬ c = ':')
                      (match r15.dropWhile (fun c => ¬ c = ':') with
                       | ':' :: r16 =>
                         if pre = [] then none
                         else
                           let wsLen := (pre.takeWhile pyIsSpace).length
                           let senderCap := pre.drop (min wsLen (pre.length - 1))
                           let msgCap := r16.dropWhile pyIsSpace
                           some (p1.1 ++ '/' :: p2.1 ++ '/' :: p3.1, timeCap, senderCap, msgCap)
                       | _ => none)
                    | _ => none
                  else none
                | _ => none
              else none
            | _ => none
          else none
        | _ => none
      else none
    | _ => none
  else none

/-- The record built for a matching chat line. -/
def waMatched (filename convId : String) (n : Nat)
    (datep timep senderp msgp : String) : WaMsg :=
  ⟨filename, filename ++ "_line_" ++ natStr n, pyStrip senderp, convId,
   parseWaTimestamp (datep ++ " " ++ pyStrip timep), "WhatsApp Chat Message",
   pyStrip msgp⟩

/-- The record built for a non-matching line when no previous record
exists and the line is not the first line of the file. -/
def waUnformatted (filename convId : String) (n : Nat) (line : String) : WaMsg :=
  ⟨filename, filename ++ "_line_" ++ natStr n ++ "_unformatted", "Unknown", convId,
   none, "Unformatted Chat Line", line⟩

/-- `messages[-1]["Message"] += extra`. -/
def appendToLast (ms : List WaMsg) (extra : String) : List WaMsg :=
  match ms with
  | [] => []
  | [m] => [⟨m.source, m.messageId, m.sender, m.conversationId, m.timestamp,
             m.subject, m.message ++ extra⟩]
  | m :: rest => m :: appendToLast rest extra

/-- One iteration of the `_parse_whatsapp_content` line loop, for the
1-based line number and raw line `nl`: blank lines are skipped; matching
lines append a parsed record; non-matching lines are appended to the last
record's body if any record exists, are silently skipped if they are line
1 (the `elif line_num == 1: continue` branch for a chat export's initial
system message), and otherwise become an "Unformatted Chat Line" record. -/
def waStep (filename convId : String) (ms : List WaMsg) (nl : Nat × String) : List WaMsg :=
  let line := pyStrip nl.2
  if line = "" then ms
  else
    match matchWaLine line.data with
    | some r =>
      ms ++ [waMatched filename convId nl.1 (String.mk r.1) (String.mk r.2.1)
              (String.mk r.2.2.1) (String.mk r.2.2.2)]
    | none =>
      if ms ≠ [] then appendToLast ms ("\n" ++ line)
      else if nl.1 = 1 then ms
      else ms ++ [waUnformatted filename convId nl.1 line]

/-- `enumerate(..., 1)`. -/
def enumFromAux (n : Nat) : List String → List (Nat × String)
  | [] => []
  | s :: rest => (n, s) :: enumFromAux (n + 1) rest

/-- `_parse_whatsapp_content`. -/
def parse_whatsapp_content (file_content filename : String) : List WaMsg :=
  let conversation_id := "whatsapp_chat_" ++ replaceDot (basename filename)
  (enumFromAux 1 (pySplitlines file_content)).foldl (waStep filename conversation_id) []

/-- Specification-side qualification of a record for the response-gap
computation: a non-error record with a truthy conversation id and a truthy,
parseable timestamp, paired with the timestamp's timeline point. -/
def entryTimePair (e : Entry) : Option (String × Int) :=
  if e.error.isSome then none
  else
    match e.convoId, e.timestamp with
    | some cid, some tv =>
      if cid ≠ "" ∧ tsTruthy tv then
        match timeObjOf tv with
        | some t => some (cid, t)
        | none => none
      else none
    | _, _ => none

/-- First occurrence of each key, in order of first appearance. -/
def firstKeys : List String → List String
  | [] => []
  | k :: ks => k :: (firstKeys ks).filter (fun c => ¬ c = k)

/-- The qualifying (conversation id, timeline point) pairs of a batch, in
record order. -/
def qualPairs (rs : List Entry) : List (String × Int) := rs.filterMap entryTimePair

/-- Specification side: the conversation ids of a batch, in order of first
appearance. -/
def specKeys (rs : List Entry) : List String := firstKeys ((qualPairs rs).map Prod.fst)

/-- Specification side: the timestamps of one conversation, in record
order. -/
def timesFor (rs : List Entry) (c : String) : List Int :=
  (qualPairs rs).filterMap (fun p => if p.1 = c then some p.2 else none)

/-- Specification side: records grouped by conversation id. -/
def specGroups (rs : List Entry) : List (String × List Int) :=
  (specKeys rs).map (fun c => (c, timesFor rs c))

/-- Specification side: all response gaps of a batch — for each
conversation, sort its timestamps ascending and take consecutive
differences in seconds. -/
def specGaps (rs : List Entry) : List ℚ :=
  ((specGroups rs).map (fun kv => consecDiffs (sortTimes kv.2))).flatten

/-- Specification side: the numeric style scores of the non-error records
of a batch. -/
def specStyleScores (rs : List Entry) : List ℚ :=
  (rs.filter (fun e => ¬ e.error.isSome)).filterMap Entry.styleScore

/-- Specification side: the exact (unrounded) average style score of a
batch, 0 when no record carries a numeric style score. -/
def specAvgStyleExact (rs : List Entry) : ℚ :=
  if specStyleScores rs = [] then 0
  else (specStyleScores rs).sum / ((specStyleScores rs).length : ℚ)

/-- Specification side: the number of non-error records whose formality
tag is `f`. -/
def specFormCount (rs : List Entry) (f : String) : Nat :=
  (rs.filter (fun e => ¬ e.error.isSome)).countP (fun e => formTag e = some f)

/-- Specification side: the exact (unrounded) average response gap, absent
exactly when no gap was observed. -/
def specAvgGapExact (rs : List Entry) : Option ℚ :=
  if specGaps rs = [] then none
  else some ((specGaps rs).sum / ((specGaps rs).length : ℚ))

/-- The style scores a single record contributes to the engagement loop. -/
def styleAdd (e : Entry) : List ℚ :=
  if e.error.isSome then []
  else match e.styleScore with
       | some q => [q]
       | none => []

/-- The conversation-times effect of a single record, expressed through
`entryTimePair`. -/
def convStepA (A : List (String × List Int)) (e : Entry) : List (String × List Int) :=
  match entryTimePair e with
  | some p => addTime A p.1 p.2
  | none => A

/-- The timestamps a pair list assigns to one conversation id. -/
def timesForP (ps : List (String × Int)) (c : String) : List Int :=
  ps.filterMap (fun p => if p.1 = c then some p.2 else none)

/-- The conversation ids of a pair list, in order of first appearance. -/
def keysP (ps : List (String × Int)) : List String := firstKeys (ps.map Prod.fst)

/-- Extends each existing group by the timestamps `ps` assigns to its key. -/
def extBy (ps : List (String × Int)) (kv : String × List Int) : String × List Int :=
  (kv.1, kv.2 ++ timesForP ps kv.1)

/-- The groups formed by the keys of `ps` not already among `ks`. -/
def newGroups (ps : List (String × Int)) (ks : List String) : List (String × List Int) :=
  ((keysP ps).filter (fun c => ¬ ks.contains c)).map (fun c => (c, timesForP ps c))

/-- Folding the qualifying pairs into the conversations dictionary. -/
def convLoopP (ps : List (String × Int)) (A : List (String × List Int)) :
    List (String × List Int) :=
  ps.foldl (fun B p => addTime B p.1 p.2) A

/-- The number of records without an error field. -/
def countNonErr (rs : List Entry) : Nat :=
  (rs.filter (fun e => ¬ e.error.isSome)).length

/-- The number of non-error records whose "Spam" value is `v`. -/
def specSpamCount (rs : List Entry) (v : String) : Nat :=
  (rs.filter (fun e => ¬ e.error.isSome)).countP (fun e => e.spam = some v)

/-- The number of non-error records whose "Sentiment" value is `v`. -/
def specSentCount (rs : List Entry) (v : String) : Nat :=
  (rs.filter (fun e => ¬ e.error.isSome)).countP (fun e => e.sentiment = some v)

/-- Specification side: the 2-decimal-rounded average style score used by
the aggregator's suggestion rules (0 when no numeric style score exists). -/
def specAvgStyleRounded (rs : List Entry) : ℚ :=
  if specStyleScores rs = [] then 0 else round2 (specAvgStyleExact rs)

/-- A record carrying only a conversation id and a `datetime` timestamp. -/
def gapEntry (cid : String) (t : Int) : Entry :=
  ⟨none, none, none, none, none, none, some cid, some (TsVal.dt t)⟩

/-- A record carrying only a conversation id and a string timestamp. -/
def strTsEntry (cid s : String) : Entry :=
  ⟨none, none, none, none, none, none, some cid, some (TsVal.strv s)⟩

/-- A record carrying only an error field. -/
def errEntry : Entry := ⟨some "processing failed", none, none, none, none, none, none, none⟩

/-- A record carrying only a numeric style score. -/
def scoreEntry (q : ℚ) : Entry := ⟨none, none, none, none, some q, none, none, none⟩

/-- A record carrying only a "Spam" label. -/
def spamEntry (v : String) : Entry := ⟨none, none, some v, none, none, none, none, none⟩

/-! ### Whitespace, stripping and tokenization lemmas -/

lemma pyStripL_eq_nil_iff (l : List Char) :
    pyStripL l = [] ↔ ∀ c ∈ l, pyIsSpace c = true := by
  unfold pyStripL
  constructor
  · intro h c hc
    rw [List.reverse_eq_nil_iff, List.dropWhile_eq_nil_iff] at h
    have hsplit : l.takeWhile pyIsSpace ++ l.dropWhile pyIsSpace = l :=
      List.takeWhile_append_dropWhile pyIsSpace l
    rcases List.mem_append.1 (hsplit ▸ hc) with h1 | h2
    · exact List.mem_takeWhile_imp h1
    · exact h _ (List.mem_reverse.2 h2)
  · intro h
    have h1 : l.dropWhile pyIsSpace = [] := List.dropWhile_eq_nil_iff.2 h
    simp [h1]

lemma pyStrip_eq_empty_iff (s : String) :
    pyStrip s = "" ↔ ∀ c ∈ s.data, pyIsSpace c = true := by
  unfold pyStrip
  rw [show ("" : String) = String.mk [] from rfl]
  constructor
  · intro h
    exact (pyStripL_eq_nil_iff s.data).1 (congrArg String.data h)
  · intro h
    exact congrArg String.mk ((pyStripL_eq_nil_iff s.data).2 h)

lemma pyIsSpace_toLower_not_alpha {c : Char} (h : pyIsSpace c = true) :
    isLowerAlpha (Char.toLower c) = false := by
  simp only [pyIsSpace, Bool.or_eq_true, decide_eq_true_eq] at h
  rcases h with ((((h | h) | h) | h) | h) | h <;> subst h <;> decide

lemma tokAux_eq_nil_of_none {p : Char → Bool} {l : List Char}
    (h : ∀ c ∈ l, p c = false) : tokAux p l [] = [] := by
  induction l with
  | nil => rfl
  | cons c cs ih =>
    have hc : p c = false := h c (List.mem_cons_self c cs)
    simp only [tokAux, hc, Bool.false_eq_true, if_false, if_pos rfl]
    exact ih (fun d hd => h d (List.mem_cons_of_mem c hd))

lemma tokenize_eq_nil_of_space {s : String}
    (h : ∀ c ∈ s.data, pyIsSpace c = true) : tokenize s = [] := by
  unfold tokenize
  apply tokAux_eq_nil_of_none
  intro c hc
  rcases List.mem_map.1 hc with ⟨d, hd, rfl⟩
  exact pyIsSpace_toLower_not_alpha (h d hd)

lemma tokenize_eq_nil_of_strip_empty {s : String} (h : pyStrip s = "") :
    tokenize s = [] :=
  tokenize_eq_nil_of_space ((pyStrip_eq_empty_iff s).1 h)

lemma tokAux_append_sep {p : Char → Bool} {sep : Char} (hsep : p sep = false)
    (ys : List Char) :
    ∀ (xs acc : List Char),
      tokAux p (xs ++ sep :: ys) acc = tokAux p xs acc ++ tokAux p ys [] := by
  intro xs
  induction xs with
  | nil =>
    intro acc
    by_cases ha : acc = []
    · subst ha
      simp [tokAux, hsep]
    · simp [tokAux, hsep, ha]
  | cons c cs ih =>
    intro acc
    by_cases hc : p c = true
    · simp only [List.cons_append, tokAux, hc, if_true]
      exact ih (c :: acc)
    · replace hc : p c = false := by simpa using hc
      by_cases ha : acc = []
      · subst ha
        simp only [List.cons_append, tokAux, hc, Bool.false_eq_true, if_false, if_pos rfl]
        exact ih []
      · simp only [List.cons_append, tokAux, hc, Bool.false_eq_true, if_false, if_neg ha,
          List.cons_append]
        rw [show cs.append (sep :: ys) = cs ++ sep :: ys from rfl, ih []]

lemma data_append (a b : String) : (a ++ b).data = a.data ++ b.data := rfl

lemma tokenize_append_space (a b : String) :
    tokenize (a ++ " " ++ b) = tokenize a ++ tokenize b := by
  unfold tokenize
  rw [data_append, data_append]
  rw [show (" " : String).data = [' '] from rfl]
  rw [List.map_append, List.map_append]
  rw [show ([' '].map Char.toLower) = [' '] from rfl]
  rw [List.append_assoc]
  exact tokAux_append_sep (by decide) _ _ []

/-! ### Spam classifier lemmas -/

lemma foldl_mul_map (f : String → ℚ) (l : List String) :
    l.foldl (fun acc w => acc * f w) 1 = (l.map f).prod := by
  rw [List.prod_eq_foldl, List.foldl_map]

/-- C1: for every message, `SpamDetector.predict` returns HAM when
tokenization yields no words or the model has zero total training
messages; otherwise it returns SPAM iff the unnormalized spam posterior
(prior `class_count/total_count` times the product of the per-word class
probabilities over all tokens) strictly exceeds the ham posterior — ties
and the all-zero case resolve to HAM.  `specPredict` is that rule stated
verbatim; the code's additional early returns (whitespace-only message,
redundant `total_messages == 0` re-check, explicit both-posteriors-zero
case) never change the result. -/
theorem claim_C1_predict_follows_spec_rule (m : SpamModel) (message : String) :
    predict m message = specPredict m message := by
  unfold predict specPredict
  by_cases hs : pyStrip message = ""
  · rw [if_pos hs, tokenize_eq_nil_of_strip_empty hs]
    simp
  · rw [if_neg hs]
    simp only []
    by_cases hw : tokenize message = []
    · simp [hw]
    · by_cases hz : m.ham_messages_count + m.spam_messages_count = 0
      · rcases Nat.add_eq_zero.1 hz with ⟨h1, h2⟩
        simp [hw, hz, h1, h2]
      · have hz' : ¬ (m.ham_messages_count = 0 ∧ m.spam_messages_count = 0) := by
          intro hc
          exact hz (by omega)
        have eH : (List.foldl (fun acc w => acc * calculate_word_probability m w m.ham_words)
              1 (tokenize message)) *
              ((m.ham_messages_count : ℚ) /
                ((m.ham_messages_count + m.spam_messages_count : Nat) : ℚ))
            = posteriorHam m (tokenize message) := by
          rw [foldl_mul_map]
          unfold posteriorHam
          ring
        have eS : (List.foldl (fun acc w => acc * calculate_word_probability m w m.spam_words)
              1 (tokenize message)) *
              ((m.spam_messages_count : ℚ) /
                ((m.ham_messages_count + m.spam_messages_count : Nat) : ℚ))
            = posteriorSpam m (tokenize message) := by
          rw [foldl_mul_map]
          unfold posteriorSpam
          ring
        rw [if_neg (by tauto :
              ¬ (tokenize message = [] ∨
                 (m.ham_messages_count = 0 ∧ m.spam_messages_count = 0))),
          if_neg (by tauto :
              ¬ (tokenize message = [] ∨
                 m.ham_messages_count + m.spam_messages_count = 0)),
          if_neg hz]
        push_cast at eH eS ⊢
        rw [eH, eS]
        by_cases h0 : posteriorHam m (tokenize message) = 0 ∧
            posteriorSpam m (tokenize message) = 0
        · rw [if_pos h0, h0.1, h0.2]
          simp
        · rw [if_neg h0]

/-! ### Style and sentiment theorems -/

/-- C2: for every input string, `StyleAnalyzer.analyze` returns a style
score in the closed interval `[0, 100]` and a formality label that is one
of exactly "formal", "informal", "neutral".  The empty/no-token branches
return 50.0/"neutral"; the main branch clamps the rescaled rounded score
into `[0, 100]` with `max 0 (min 100 _)` and picks the label by a
three-way threshold test. -/
theorem claim_C2_style_bounds (text : String) :
    0 ≤ (styleAnalyze text).styleScore ∧ (styleAnalyze text).styleScore ≤ 100 ∧
      ((styleAnalyze text).formality = "formal" ∨
       (styleAnalyze text).formality = "informal" ∨
       (styleAnalyze text).formality = "neutral") := by
  unfold styleAnalyze
  by_cases hs : pyStrip text = ""
  · rw [if_pos hs]
    refine ⟨by norm_num, by norm_num, Or.inr (Or.inr rfl)⟩
  · rw [if_neg hs]
    simp only []
    by_cases hw : tokenizeStyle text = []
    · rw [if_pos hw]
      refine ⟨by norm_num, by norm_num, Or.inr (Or.inr rfl)⟩
    · rw [if_neg hw]
      refine ⟨le_max_left 0 _, max_le (by norm_num) (min_le_left 100 _), ?_⟩
      split_ifs
      · exact Or.inl rfl
      · exact Or.inr (Or.inl rfl)
      · exact Or.inr (Or.inr rfl)

/-- C7: for every empty or whitespace-only input string, the sentiment
analyzer returns "neutral", the style analyzer returns a score of exactly
50.0 with formality "neutral", and the spam classifier (any model)
predicts HAM: each of the three functions returns from its explicit
empty-after-strip early branch. -/
theorem claim_C7_empty_input_defaults (s : String)
    (h : ∀ c ∈ s.data, pyIsSpace c = true) :
    sentimentAnalyze s = "neutral" ∧
      styleAnalyze s = ⟨50, "neutral"⟩ ∧
      ∀ m : SpamModel, predict m s = false := by
  have hs : pyStrip s = "" := (pyStrip_eq_empty_iff s).2 h
  refine ⟨?_, ?_, ?_⟩
  · unfold sentimentAnalyze
    rw [if_pos hs]
  · unfold styleAnalyze
    rw [if_pos hs]
  · intro m
    unfold predict
    rw [if_pos hs]

/-- Witness for C7 at the concrete whitespace-only input `"  "` (and the
default-trained model for the classifier conjunct). -/
theorem claim_C7_witness :
    (∀ c ∈ ("  " : String).data, pyIsSpace c = true) ∧
      sentimentAnalyze "  " = "neutral" ∧
      styleAnalyze "  " = ⟨50, "neutral"⟩ ∧
      predict defaultModel "  " = false := by
  have h : ∀ c ∈ ("  " : String).data, pyIsSpace c = true := by decide
  obtain ⟨h1, h2, h3⟩ := claim_C7_empty_input_defaults "  " h
  exact ⟨h, h1, h2, h3 defaultModel⟩

/-! ### Model mutation during prediction (C5) -/

/-- C5 (code bug): predicting a message containing a word absent from a
class word map mutates the trained model.  `_calculate_word_probability`
reads `category_word_counts[word]` from a `defaultdict(int)`, which
inserts the missing key with count 0.  At the default-trained model and
the message "free" ("free" is a trained spam word but absent from
`ham_words`), prediction returns SPAM but leaves `ham_words` extended by
the zero-count entry `("free", 0)` — the model is not left exactly as it
was, contradicting the claim and the specification's immutability
requirement. -/
theorem claim_C5_predict_mutates_model :
    (predictSt defaultModel "free").2.ham_words ≠ defaultModel.ham_words ∧
      (predictSt defaultModel "free").2.ham_words
        = defaultModel.ham_words ++ [("free", 0)] ∧
      (predictSt defaultModel "free").2.spam_words = defaultModel.spam_words := by
  refine ⟨?_, ?_, ?_⟩ <;> decide

/-! ### Classifier monotonicity (C8) -/

lemma word_probability_pos (m : SpamModel) (w : String) (counts : List (String × Nat)) :
    0 < calculate_word_probability m w counts := by
  unfold calculate_word_probability
  apply div_pos
  · positivity
  · have h1 : (1 : ℚ) ≤ ((if m.all_words.length > 0 then m.all_words.length else 1 : Nat) : ℚ) := by
      have h0 : (1 : Nat) ≤ (if m.all_words.length > 0 then m.all_words.length else 1) := by
        split_ifs with h
        · omega
        · exact le_refl 1
      exact_mod_cast h0
    have h2 : (0 : ℚ) ≤ ((List.map Prod.snd counts).sum : ℚ) := by positivity
    linarith

lemma prod_map_le_prod_map (l : List String) (f g : String → ℚ)
    (hpos : ∀ w ∈ l, 0 < g w) (hle : ∀ w ∈ l, g w ≤ f w) :
    (l.map g).prod ≤ (l.map f).prod := by
  induction l with
  | nil => simp
  | cons a tl ih =>
    simp only [List.map_cons, List.prod_cons]
    have hg : 0 < g a := hpos a (List.mem_cons_self a tl)
    have hf : 0 ≤ f a := le_trans hg.le (hle a (List.mem_cons_self a tl))
    have hptl : (0 : ℚ) ≤ (tl.map g).prod := by
      apply le_of_lt
      apply List.prod_pos
      intro x hx
      rcases List.mem_map.1 hx with ⟨w, hw, rfl⟩
      exact hpos w (List.mem_cons_of_mem a hw)
    exact mul_le_mul (hle a (List.mem_cons_self a tl))
      (ih (fun w hw => hpos w (List.mem_cons_of_mem a hw))
          (fun w hw => hle w (List.mem_cons_of_mem a hw)))
      hptl hf

lemma posteriorHam_append (m : SpamModel) (ws extra : List String) :
    posteriorHam m (ws ++ extra) =
      posteriorHam m ws *
        (extra.map (fun w => calculate_word_probability m w m.ham_words)).prod := by
  unfold posteriorHam
  rw [List.map_append, List.prod_append]
  ring

lemma posteriorSpam_append (m : SpamModel) (ws extra : List String) :
    posteriorSpam m (ws ++ extra) =
      posteriorSpam m ws *
        (extra.map (fun w => calculate_word_probability m w m.spam_words)).prod := by
  unfold posteriorSpam
  rw [List.map_append, List.prod_append]
  ring

lemma posteriorHam_nonneg (m : SpamModel) (ws : List String) :
    0 ≤ posteriorHam m ws := by
  unfold posteriorHam
  apply mul_nonneg
  · positivity
  · apply le_of_lt
    apply List.prod_pos
    intro x hx
    rcases List.mem_map.1 hx with ⟨w, hw, rfl⟩
    exact word_probability_pos m w m.ham_words

lemma posteriorSpam_nonneg (m : SpamModel) (ws : List String) :
    0 ≤ posteriorSpam m ws := by
  unfold posteriorSpam
  apply mul_nonneg
  · positivity
  · apply le_of_lt
    apply List.prod_pos
    intro x hx
    rcases List.mem_map.1 hx with ⟨w, hw, rfl⟩
    exact word_probability_pos m w m.spam_words

lemma defaultModel_eq : defaultModel =
    ⟨[("hello", 1), ("how", 1), ("are", 1), ("you", 1)],
     [("buy", 1), ("now", 1), ("free", 1), ("money", 1)], 1, 1,
     ["hello", "how", "are", "you", "buy", "now", "free", "money"]⟩ := by
  decide

/-- C8 (amended): appending spam-indicative words — words whose smoothed
spam-class probability is at least their ham-class probability — cannot
decrease the spam-to-ham posterior odds: for any model, message, and
appended text all of whose tokens are spam-indicative, the cross-product
inequality `PS(extended)·PH(original) ≥ PH(extended)·PS(original)` holds
(the odds formulation avoids dividing by a possibly-zero ham posterior).
The raw spam posterior itself can strictly decrease, because every
appended word multiplies it by a probability factor at most 1 — see the
counterexample theorem. -/
theorem claim_C8_odds_monotone (m : SpamModel) (message extraText : String)
    (h : ∀ w ∈ tokenize extraText,
      calculate_word_probability m w m.ham_words ≤
        calculate_word_probability m w m.spam_words) :
    posteriorHam m (tokenize (message ++ " " ++ extraText)) *
        posteriorSpam m (tokenize message) ≤
      posteriorSpam m (tokenize (message ++ " " ++ extraText)) *
        posteriorHam m (tokenize message) := by
  rw [tokenize_append_space, posteriorHam_append, posteriorSpam_append]
  set PH := posteriorHam m (tokenize message) with hPH
  set PS := posteriorSpam m (tokenize message) with hPS
  set QH := ((tokenize extraText).map
    (fun w => calculate_word_probability m w m.ham_words)).prod with hQH
  set QS := ((tokenize extraText).map
    (fun w => calculate_word_probability m w m.spam_words)).prod with hQS
  have hq : QH ≤ QS := by
    rw [hQH, hQS]
    exact prod_map_le_prod_map _ _ _
      (fun w _ => word_probability_pos m w m.ham_words) h
  have hk : (0 : ℚ) ≤ PH * PS :=
    mul_nonneg (posteriorHam_nonneg m _) (posteriorSpam_nonneg m _)
  calc PH * QH * PS = PH * PS * QH := by ring
    _ ≤ PH * PS * QS := mul_le_mul_of_nonneg_left hq hk
    _ = PS * QS * PH := by ring

/-- Witness for C8 (amended) at the default-trained model, the message
"hello" and the appended spam-indicative word "free". -/
theorem claim_C8_odds_monotone_witness :
    (∀ w ∈ tokenize "free",
      calculate_word_probability defaultModel w defaultModel.ham_words ≤
        calculate_word_probability defaultModel w defaultModel.spam_words) ∧
      posteriorHam defaultModel (tokenize ("hello" ++ " " ++ "free")) *
          posteriorSpam defaultModel (tokenize "hello") ≤
        posteriorSpam defaultModel (tokenize ("hello" ++ " " ++ "free")) *
          posteriorHam defaultModel (tokenize "hello") := by
  have h : ∀ w ∈ tokenize "free",
      calculate_word_probability defaultModel w defaultModel.ham_words ≤
        calculate_word_probability defaultModel w defaultModel.spam_words := by
    have htok : tokenize "free" = ["free"] := by decide
    intro w hw
    rw [htok] at hw
    have hw' : w = "free" := by simpa using hw
    subst hw'
    rw [defaultModel_eq]
    norm_num +decide [calculate_word_probability, getCount]
  exact ⟨h, claim_C8_odds_monotone defaultModel "hello" "free" h⟩

/-- Counterexample to C8 as stated: "free" is spam-indicative for the
default-trained model (its smoothed spam probability 1/6 strictly exceeds
its ham probability 1/12), yet appending it to the message "free" makes
the computed spam posterior strictly smaller (1/72 < 1/12): multiplying in
another probability factor below 1 shrinks the unnormalized posterior. -/
theorem claim_C8_counterexample :
    calculate_word_probability defaultModel "free" defaultModel.ham_words <
        calculate_word_probability defaultModel "free" defaultModel.spam_words ∧
      posteriorSpam defaultModel (tokenize ("free" ++ " " ++ "free")) <
        posteriorSpam defaultModel (tokenize "free") := by
  have htok1 : tokenize ("free" ++ " " ++ "free") = ["free", "free"] := by decide
  have htok2 : tokenize "free" = ["free"] := by decide
  rw [htok1, htok2, defaultModel_eq]
  constructor
  · norm_num +decide [calculate_word_probability, getCount]
  · norm_num +decide [posteriorSpam, calculate_word_probability, getCount]

/-! ### Chat-log parsing of non-matching lines (C6) -/

/-- Counterexample to C6 as stated: the single line "hello" is non-empty
and does not match the chat-line pattern, and no preceding record exists —
the claim says it must become a record with sender "Unknown" and subject
"Unformatted Chat Line", but `_parse_whatsapp_content` returns no record
at all: the `elif line_num == 1: continue` branch silently skips a
non-matching first line. -/
theorem claim_C6_counterexample :
    pyStrip "hello" ≠ "" ∧ matchWaLine (pyStrip "hello").data = none ∧
      parse_whatsapp_content "hello" "f.txt" = [] := by
  refine ⟨?_, ?_, ?_⟩ <;> decide

/-- C6 (amended): in chat-log parsing, every non-empty line that does not
match the chat-line pattern is appended (with a newline) to the body of
the immediately preceding record when one exists; when no preceding record
exists it forms a new record with sender "Unknown" and subject
"Unformatted Chat Line" — except when it is the first line of the file,
which is silently skipped (the parser treats it as a chat export's
initial system message).  The first conjunct ties the per-line step to the
parser's loop over the enumerated stripped lines. -/
theorem claim_C6_unmatched_line_handling :
    (∀ content filename, parse_whatsapp_content content filename =
      (enumFromAux 1 (pySplitlines content)).foldl
        (waStep filename ("whatsapp_chat_" ++ replaceDot (basename filename))) []) ∧
    (∀ filename convId ms n raw, pyStrip raw ≠ "" →
      matchWaLine (pyStrip raw).data = none →
      (ms ≠ [] →
        waStep filename convId ms (n, raw) = appendToLast ms ("\n" ++ pyStrip raw)) ∧
      (ms = [] → n ≠ 1 →
        waStep filename convId ms (n, raw) = [waUnformatted filename convId n (pyStrip raw)]) ∧
      (ms = [] → n = 1 → waStep filename convId ms (n, raw) = ms)) := by
  constructor
  · intro content filename
    rfl
  · intro filename convId ms n raw h1 h2
    unfold waStep
    simp only [h2, if_neg h1]
    refine ⟨?_, ?_, ?_⟩
    · intro hms
      rw [if_pos hms]
    · intro hms hn
      subst hms
      simp [hn]
    · intro hms hn
      subst hms
      simp [hn]

/-- Witness for C6 (amended): the non-matching line "hello" as line 2 with
no preceding record becomes an "Unformatted Chat Line" record. -/
theorem claim_C6_witness :
    pyStrip "hello" ≠ "" ∧ matchWaLine (pyStrip "hello").data = none ∧
      waStep "f.txt" "c" [] (2, "hello") = [waUnformatted "f.txt" "c" 2 (pyStrip "hello")] := by
  have h1 : pyStrip "hello" ≠ "" := by decide
  have h2 : matchWaLine (pyStrip "hello").data = none := by decide
  exact ⟨h1, h2,
    ((claim_C6_unmatched_line_handling.2 "f.txt" "c" [] 2 "hello" h1 h2).2.1 rfl
      (by decide))⟩

/-! ### Content metrics lemmas -/

lemma contentStep_err {s : CState} {e : Entry} (h : e.error.isSome = true) :
    contentStep s e = s := by
  unfold contentStep
  rw [if_pos h]

lemma countNonErr_cons_err {e : Entry} {rs : List Entry} (h : e.error.isSome = true) :
    countNonErr (e :: rs) = countNonErr rs := by
  have h' : ¬ e.error = none := Option.isSome_iff_ne_none.mp h
  simp [countNonErr, List.filter_cons, h']

lemma countNonErr_cons_ok {e : Entry} {rs : List Entry} (h : ¬ e.error.isSome = true) :
    countNonErr (e :: rs) = countNonErr rs + 1 := by
  have h' : e.error = none := Option.not_isSome_iff_eq_none.mp h
  simp [countNonErr, List.filter_cons, h']

lemma specSpamCount_cons_err {e : Entry} {rs : List Entry} (v : String)
    (h : e.error.isSome = true) : specSpamCount (e :: rs) v = specSpamCount rs v := by
  have h' : ¬ e.error = none := Option.isSome_iff_ne_none.mp h
  simp [specSpamCount, List.filter_cons, h']

lemma specSpamCount_cons_ok {e : Entry} {rs : List Entry} (v : String)
    (h : ¬ e.error.isSome = true) :
    specSpamCount (e :: rs) v = specSpamCount rs v + (if e.spam = some v then 1 else 0) := by
  have h' : e.error = none := Option.not_isSome_iff_eq_none.mp h
  simp [specSpamCount, List.filter_cons, h', List.countP_cons]

lemma specSentCount_cons_err {e : Entry} {rs : List Entry} (v : String)
    (h : e.error.isSome = true) : specSentCount (e :: rs) v = specSentCount rs v := by
  have h' : ¬ e.error = none := Option.isSome_iff_ne_none.mp h
  simp [specSentCount, List.filter_cons, h']

lemma specSentCount_cons_ok {e : Entry} {rs : List Entry} (v : String)
    (h : ¬ e.error.isSome = true) :
    specSentCount (e :: rs) v = specSentCount rs v + (if e.sentiment = some v then 1 else 0) := by
  have h' : e.error = none := Option.not_isSome_iff_eq_none.mp h
  simp [specSentCount, List.filter_cons, h', List.countP_cons]

lemma specFormCount_cons_err {e : Entry} {rs : List Entry} (v : String)
    (h : e.error.isSome = true) : specFormCount (e :: rs) v = specFormCount rs v := by
  have h' : ¬ e.error = none := Option.isSome_iff_ne_none.mp h
  simp [specFormCount, List.filter_cons, h']

lemma specFormCount_cons_ok {e : Entry} {rs : List Entry} (v : String)
    (h : ¬ e.error.isSome = true) :
    specFormCount (e :: rs) v = specFormCount rs v + (if formTag e = some v then 1 else 0) := by
  have h' : e.error = none := Option.not_isSome_iff_eq_none.mp h
  simp [specFormCount, List.filter_cons, h', List.countP_cons]

lemma specStyleScores_cons_err {e : Entry} {rs : List Entry} (h : e.error.isSome = true) :
    specStyleScores (e :: rs) = specStyleScores rs := by
  have h' : ¬ e.error = none := Option.isSome_iff_ne_none.mp h
  simp [specStyleScores, List.filter_cons, h']

lemma specStyleScores_cons_ok {e : Entry} {rs : List Entry} (h : ¬ e.error.isSome = true) :
    specStyleScores (e :: rs) =
      (match e.styleScore with | some q => [q] | none => []) ++ specStyleScores rs := by
  have h' : e.error = none := Option.not_isSome_iff_eq_none.mp h
  simp only [specStyleScores, List.filter_cons, h', if_pos, List.filterMap_cons]
  cases hsc : e.styleScore <;> simp [hsc]

lemma content_foldl_closed (rs : List Entry) :
    ∀ s : CState, rs.foldl contentStep s =
      ⟨s.total + countNonErr rs,
       s.spamSPAM + specSpamCount rs "SPAM", s.spamHAM + specSpamCount rs "HAM",
       s.sentPositive + specSentCount rs "positive",
       s.sentNeutral + specSentCount rs "neutral",
       s.sentNegative + specSentCount rs "negative",
       s.styleScores ++ specStyleScores rs,
       s.formFormal + specFormCount rs "formal",
       s.formInformal + specFormCount rs "informal",
       s.formNeutral + specFormCount rs "neutral"⟩ := by
  induction rs with
  | nil =>
    intro s
    cases s
    simp [countNonErr, specSpamCount, specSentCount, specFormCount, specStyleScores]
  | cons e rs ih =>
    intro s
    rw [List.foldl_cons, ih]
    by_cases h : e.error.isSome = true
    · rw [contentStep_err h, countNonErr_cons_err h, specSpamCount_cons_err _ h,
        specSpamCount_cons_err _ h, specSentCount_cons_err _ h, specSentCount_cons_err _ h,
        specSentCount_cons_err _ h, specStyleScores_cons_err h, specFormCount_cons_err _ h,
        specFormCount_cons_err _ h, specFormCount_cons_err _ h]
    · unfold contentStep
      rw [if_neg h, countNonErr_cons_ok h, specSpamCount_cons_ok _ h,
        specSpamCount_cons_ok _ h, specSentCount_cons_ok _ h, specSentCount_cons_ok _ h,
        specSentCount_cons_ok _ h, specStyleScores_cons_ok h, specFormCount_cons_ok _ h,
        specFormCount_cons_ok _ h, specFormCount_cons_ok _ h]
      simp only [CState.mk.injEq]
      refine ⟨by omega, by omega, by omega, by omega, by omega, by omega, ?_,
        by omega, by omega, by omega⟩
      cases hsc : e.styleScore <;> simp [hsc]

lemma content_metrics_closed (rs : List Entry) :
    calculate_content_metrics rs =
      ⟨countNonErr rs, specSpamCount rs "SPAM", specSpamCount rs "HAM",
       specSentCount rs "positive", specSentCount rs "neutral",
       specSentCount rs "negative", avgOf (specStyleScores rs),
       specFormCount rs "formal", specFormCount rs "informal",
       specFormCount rs "neutral"⟩ := by
  unfold calculate_content_metrics
  rw [content_foldl_closed]
  simp

lemma countP_pair_le {α : Type} (l : List α) (p q : α → Bool)
    (h : ∀ x ∈ l, ¬ (p x = true ∧ q x = true)) :
    l.countP p + l.countP q ≤ l.length := by
  induction l with
  | nil => simp
  | cons a tl ih =>
    have ha := h a (List.mem_cons_self a tl)
    have htl := ih (fun x hx => h x (List.mem_cons_of_mem a hx))
    simp only [List.countP_cons, List.length_cons]
    by_cases hp : p a = true
    · by_cases hq : q a = true
      · exact absurd ⟨hp, hq⟩ ha
      · simp [hp, hq]
        omega
    · by_cases hq : q a = true
      · simp [hp, hq]
        omega
      · simp [hp, hq]
        omega

lemma countP_triple_le {α : Type} (l : List α) (p q r : α → Bool)
    (hpq : ∀ x ∈ l, ¬ (p x = true ∧ q x = true))
    (hpr : ∀ x ∈ l, ¬ (p x = true ∧ r x = true))
    (hqr : ∀ x ∈ l, ¬ (q x = true ∧ r x = true)) :
    l.countP p + l.countP q + l.countP r ≤ l.length := by
  induction l with
  | nil => simp
  | cons a tl ih =>
    have h1 := hpq a (List.mem_cons_self a tl)
    have h2 := hpr a (List.mem_cons_self a tl)
    have h3 := hqr a (List.mem_cons_self a tl)
    have htl := ih (fun x hx => hpq x (List.mem_cons_of_mem a hx))
      (fun x hx => hpr x (List.mem_cons_of_mem a hx))
      (fun x hx => hqr x (List.mem_cons_of_mem a hx))
    simp only [List.countP_cons, List.length_cons]
    by_cases hp : p a = true
    · by_cases hq : q a = true
      · exact absurd ⟨hp, hq⟩ h1
      · by_cases hr : r a = true
        · exact absurd ⟨hp, hr⟩ h2
        · simp [hp, hq, hr]
          omega
    · by_cases hq : q a = true
      · by_cases hr : r a = true
        · exact absurd ⟨hq, hr⟩ h3
        · simp [hp, hq, hr]
          omega
      · by_cases hr : r a = true
        · simp [hp, hq, hr]
          omega
        · simp [hp, hq, hr]
          omega

/-- C10: "Total Messages" equals the number of records without an error
field; the spam/ham, sentiment, and formality tallies each sum to at most
that total; and a non-error record whose label value is missing or outside
the recognized set still increments the total while being silently omitted
from the corresponding tally (here: a "Spam" value other than
"SPAM"/"HAM" leaves both spam tallies unchanged) and from the style-score
average (a record without a numeric "Style Score" leaves the average
unchanged). -/
theorem claim_C10_content_invariants :
    (∀ rs, (calculate_content_metrics rs).totalMessages = countNonErr rs) ∧
    (∀ rs,
      (calculate_content_metrics rs).spamSPAM + (calculate_content_metrics rs).spamHAM ≤
          (calculate_content_metrics rs).totalMessages ∧
        (calculate_content_metrics rs).sentPositive +
            (calculate_content_metrics rs).sentNeutral +
            (calculate_content_metrics rs).sentNegative ≤
          (calculate_content_metrics rs).totalMessages ∧
        (calculate_content_metrics rs).formFormal +
            (calculate_content_metrics rs).formInformal +
            (calculate_content_metrics rs).formNeutral ≤
          (calculate_content_metrics rs).totalMessages) ∧
    (∀ rs e, e.error = none → ¬ e.spam = some "SPAM" → ¬ e.spam = some "HAM" →
      (calculate_content_metrics (e :: rs)).totalMessages =
          (calculate_content_metrics rs).totalMessages + 1 ∧
        (calculate_content_metrics (e :: rs)).spamSPAM =
          (calculate_content_metrics rs).spamSPAM ∧
        (calculate_content_metrics (e :: rs)).spamHAM =
          (calculate_content_metrics rs).spamHAM) ∧
    (∀ rs e, e.error = none → e.styleScore = none →
      (calculate_content_metrics (e :: rs)).averageStyleScore =
        (calculate_content_metrics rs).averageStyleScore) := by
  refine ⟨?_, ?_, ?_, ?_⟩
  · intro rs
    rw [content_metrics_closed]
  · intro rs
    rw [content_metrics_closed]
    refine ⟨?_, ?_, ?_⟩
    · apply countP_pair_le
      intro x _ hx
      rw [decide_eq_true_eq] at hx
      obtain ⟨hx1, hx2⟩ := hx
      rw [hx1] at hx2
      simp at hx2
    · apply countP_triple_le <;>
        · intro x _ hx
          simp only [decide_eq_true_eq] at hx
          obtain ⟨hx1, hx2⟩ := hx
          rw [hx1] at hx2
          simp at hx2
    · apply countP_triple_le <;>
        · intro x _ hx
          simp only [decide_eq_true_eq] at hx
          obtain ⟨hx1, hx2⟩ := hx
          rw [hx1] at hx2
          simp at hx2
  · intro rs e he hs1 hs2
    have h : ¬ e.error.isSome = true := by simp [he]
    rw [content_metrics_closed, content_metrics_closed]
    refine ⟨?_, ?_, ?_⟩
    · simp [countNonErr_cons_ok h]
    · simp [specSpamCount_cons_ok _ h, hs1]
    · simp [specSpamCount_cons_ok _ h, hs2]
  · intro rs e he hsc
    have h : ¬ e.error.isSome = true := by simp [he]
    rw [content_metrics_closed, content_metrics_closed]
    simp [specStyleScores_cons_ok h, hsc]

/-- Witness for C10 at the concrete non-error record with the
unrecognized spam label "MAYBE" and no style score: the total increments,
the spam tallies and the style average are untouched. -/
theorem claim_C10_witness :
    (spamEntry "MAYBE").error = none ∧
      ¬ (spamEntry "MAYBE").spam = some "SPAM" ∧
      ¬ (spamEntry "MAYBE").spam = some "HAM" ∧
      (spamEntry "MAYBE").styleScore = none ∧
      (calculate_content_metrics [spamEntry "MAYBE"]).totalMessages =
        (calculate_content_metrics []).totalMessages + 1 ∧
      (calculate_content_metrics [spamEntry "MAYBE"]).spamSPAM =
        (calculate_content_metrics []).spamSPAM ∧
      (calculate_content_metrics [spamEntry "MAYBE"]).averageStyleScore =
        (calculate_content_metrics []).averageStyleScore := by
  have h1 : (spamEntry "MAYBE").error = none := by decide
  have h2 : ¬ (spamEntry "MAYBE").spam = some "SPAM" := by decide
  have h3 : ¬ (spamEntry "MAYBE").spam = some "HAM" := by decide
  have h4 : (spamEntry "MAYBE").styleScore = none := by decide
  obtain ⟨ht, hsp, _⟩ := claim_C10_content_invariants.2.2.1 [] (spamEntry "MAYBE") h1 h2 h3
  have hav := claim_C10_content_invariants.2.2.2 [] (spamEntry "MAYBE") h1 h4
  exact ⟨h1, h2, h3, h4, ht, hsp, hav⟩

/-! ### Engagement metrics lemmas -/

lemma engSender_fields (st : EState) (e : Entry) :
    (engSender st e).convTimes = st.convTimes ∧
      (engSender st e).styleScores = st.styleScores ∧
      (engSender st e).formFormal = st.formFormal ∧
      (engSender st e).formInformal = st.formInformal ∧
      (engSender st e).formNeutral = st.formNeutral := by
  unfold engSender
  cases e.sender with
  | none => exact ⟨rfl, rfl, rfl, rfl, rfl⟩
  | some x =>
    by_cases hx : x ≠ "" <;> simp [hx]

lemma engStyle_fields (st : EState) (e : Entry) :
    (engStyle st e).convTimes = st.convTimes ∧
      (engStyle st e).formFormal = st.formFormal ∧
      (engStyle st e).formInformal = st.formInformal ∧
      (engStyle st e).formNeutral = st.formNeutral ∧
      (engStyle st e).styleScores =
        st.styleScores ++ (match e.styleScore with | some q => [q] | none => []) := by
  unfold engStyle
  cases e.styleScore <;> simp

lemma engForm_fields (st : EState) (e : Entry) :
    (engForm st e).convTimes = st.convTimes ∧
      (engForm st e).styleScores = st.styleScores ∧
      (engForm st e).formFormal =
        st.formFormal + (if formTag e = some "formal" then 1 else 0) ∧
      (engForm st e).formInformal =
        st.formInformal + (if formTag e = some "informal" then 1 else 0) ∧
      (engForm st e).formNeutral =
        st.formNeutral + (if formTag e = some "neutral" then 1 else 0) := by
  unfold engForm
  exact ⟨rfl, rfl, rfl, rfl, rfl⟩

lemma engConv_fields (st : EState) (e : Entry) (he : ¬ e.error.isSome = true) :
    (engConv st e).styleScores = st.styleScores ∧
      (engConv st e).formFormal = st.formFormal ∧
      (engConv st e).formInformal = st.formInformal ∧
      (engConv st e).formNeutral = st.formNeutral ∧
      (engConv st e).convTimes = convStepA st.convTimes e := by
  unfold engConv convStepA entryTimePair
  rw [if_neg (by simpa using he)]
  cases hc : e.convoId with
  | none => cases e.timestamp <;> simp
  | some cid =>
    cases ht : e.timestamp with
    | none => simp
    | some tv =>
      by_cases hcond : cid ≠ "" ∧ tsTruthy tv = true
      · cases hto : timeObjOf tv <;> simp [hcond, hto]
      · simp [hcond]

lemma engStep_fields (st : EState) (e : Entry) :
    (engStep st e).convTimes = convStepA st.convTimes e ∧
      (engStep st e).styleScores = st.styleScores ++ styleAdd e ∧
      (engStep st e).formFormal = st.formFormal +
        (if e.error.isSome = true then 0 else if formTag e = some "formal" then 1 else 0) ∧
      (engStep st e).formInformal = st.formInformal +
        (if e.error.isSome = true then 0 else if formTag e = some "informal" then 1 else 0) := by
  unfold engStep
  by_cases he : e.error.isSome = true
  · rw [if_pos he]
    unfold convStepA entryTimePair styleAdd
    rw [if_pos he, if_pos he]
    simp [he]
  · rw [if_neg he]
    obtain ⟨c1, c2, c3, c4, c5⟩ := engConv_fields (engForm (engStyle (engSender st e) e) e) e he
    obtain ⟨f1, f2, f3, f4, f5⟩ := engForm_fields (engStyle (engSender st e) e) e
    obtain ⟨y1, y2, y3, y4, y5⟩ := engStyle_fields (engSender st e) e
    obtain ⟨s1, s2, s3, s4, s5⟩ := engSender_fields st e
    refine ⟨?_, ?_, ?_, ?_⟩
    · rw [c5, f1, y1, s1]
    · rw [c1, f2, y5, s2]
      unfold styleAdd
      rw [if_neg he]
    · rw [c2, f3, y2, s3]
      simp [he]
    · rw [c3, f4, y3, s4]
      simp [he]

lemma eng_foldl_styleScores (rs : List Entry) :
    ∀ st : EState, (rs.foldl engStep st).styleScores = st.styleScores ++ specStyleScores rs := by
  induction rs with
  | nil =>
    intro st
    simp [specStyleScores]
  | cons e rs ih =>
    intro st
    rw [List.foldl_cons, ih, (engStep_fields st e).2.1]
    by_cases he : e.error.isSome = true
    · rw [specStyleScores_cons_err he]
      unfold styleAdd
      rw [if_pos he]
      simp
    · rw [specStyleScores_cons_ok he]
      unfold styleAdd
      rw [if_neg he, List.append_assoc]

lemma eng_foldl_formFormal (rs : List Entry) :
    ∀ st : EState, (rs.foldl engStep st).formFormal =
      st.formFormal + specFormCount rs "formal" := by
  induction rs with
  | nil =>
    intro st
    simp [specFormCount]
  | cons e rs ih =>
    intro st
    rw [List.foldl_cons, ih, (engStep_fields st e).2.2.1]
    by_cases he : e.error.isSome = true
    · rw [specFormCount_cons_err _ he, if_pos he]
      omega
    · rw [specFormCount_cons_ok _ he, if_neg he]
      omega

lemma eng_foldl_formInformal (rs : List Entry) :
    ∀ st : EState, (rs.foldl engStep st).formInformal =
      st.formInformal + specFormCount rs "informal" := by
  induction rs with
  | nil =>
    intro st
    simp [specFormCount]
  | cons e rs ih =>
    intro st
    rw [List.foldl_cons, ih, (engStep_fields st e).2.2.2]
    by_cases he : e.error.isSome = true
    · rw [specFormCount_cons_err _ he, if_pos he]
      omega
    · rw [specFormCount_cons_ok _ he, if_neg he]
      omega

lemma eng_foldl_convTimes (rs : List Entry) :
    ∀ st : EState, (rs.foldl engStep st).convTimes =
      convLoopP (qualPairs rs) st.convTimes := by
  induction rs with
  | nil =>
    intro st
    simp [qualPairs, convLoopP]
  | cons e rs ih =>
    intro st
    rw [List.foldl_cons, ih, (engStep_fields st e).1]
    unfold convStepA qualPairs convLoopP
    cases hq : entryTimePair e with
    | none => simp [List.filterMap_cons, hq]
    | some p => simp [List.filterMap_cons, hq]

lemma timesForP_cons_eq (c : String) (t : Int) (ps : List (String × Int)) :
    timesForP ((c, t) :: ps) c = t :: timesForP ps c := by
  simp [timesForP, List.filterMap_cons]

lemma timesForP_cons_ne {c k : String} (t : Int) (ps : List (String × Int))
    (h : ¬ c = k) : timesForP ((c, t) :: ps) k = timesForP ps k := by
  simp [timesForP, List.filterMap_cons, h]

lemma addTime_not_mem {A : List (String × List Int)} {c : String} (t : Int)
    (h : ¬ c ∈ A.map Prod.fst) : addTime A c t = A ++ [(c, [t])] := by
  induction A with
  | nil => rfl
  | cons kv A ih =>
    obtain ⟨k, v⟩ := kv
    simp only [List.map_cons, List.mem_cons] at h
    push_neg at h
    unfold addTime
    rw [if_neg (fun hk => h.1 hk.symm), ih h.2]
    rfl

lemma addTime_map_fst_mem {A : List (String × List Int)} {c : String} (t : Int)
    (h : c ∈ A.map Prod.fst) : (addTime A c t).map Prod.fst = A.map Prod.fst := by
  induction A with
  | nil => cases h
  | cons kv A ih =>
    obtain ⟨k, v⟩ := kv
    unfold addTime
    by_cases hk : k = c
    · rw [if_pos hk]
      rfl
    · rw [if_neg hk]
      simp only [List.map_cons, List.mem_cons] at h
      rcases h with h | h
      · exact absurd h.symm hk
      · simp only [List.map_cons]
        rw [ih h]

lemma addTime_map_ext {A : List (String × List Int)} {c : String} (t : Int)
    (ps : List (String × Int))
    (hnd : (A.map Prod.fst).Nodup) (hmem : c ∈ A.map Prod.fst) :
    (addTime A c t).map (extBy ps) = A.map (extBy ((c, t) :: ps)) := by
  induction A with
  | nil => cases hmem
  | cons kv A ih =>
    obtain ⟨k, v⟩ := kv
    simp only [List.map_cons, List.nodup_cons] at hnd
    unfold addTime
    by_cases hk : k = c
    · subst hk
      rw [if_pos rfl]
      simp only [List.map_cons]
      congr 1
      · unfold extBy
        rw [timesForP_cons_eq]
        simp
      · apply List.map_congr_left
        intro kv2 hkv2
        unfold extBy
        rw [timesForP_cons_ne]
        intro hc
        exact hnd.1 (hc ▸ List.mem_map_of_mem Prod.fst hkv2)
    · rw [if_neg hk]
      simp only [List.map_cons, List.mem_cons] at hmem
      rcases hmem with h | h
      · exact absurd h.symm hk
      · simp only [List.map_cons]
        rw [ih hnd.2 h]
        congr 1
        unfold extBy
        exact (timesForP_cons_ne _ _ (fun hc => hk hc.symm)).symm ▸ rfl

lemma contains_iff_mem {ks : List String} {c : String} :
    ks.contains c = true ↔ c ∈ ks := by
  simp [List.contains_eq_any_beq, List.any_eq_true]

lemma keysP_cons (c : String) (t : Int) (ps : List (String × Int)) :
    keysP ((c, t) :: ps) = c :: (keysP ps).filter (fun x => ¬ x = c) := by
  simp [keysP, firstKeys]

lemma newGroups_cons_mem {c : String} {ks : List String} (t : Int)
    (ps : List (String × Int)) (h : c ∈ ks) :
    newGroups ((c, t) :: ps) ks = newGroups ps ks := by
  unfold newGroups
  rw [keysP_cons]
  rw [List.filter_cons]
  rw [if_neg (by simp [contains_iff_mem, h])]
  rw [List.filter_filter]
  have hfe : ∀ x ∈ keysP ps,
      (decide (¬ ks.contains x = true) && decide (¬ x = c)) =
        decide (¬ ks.contains x = true) := by
    intro x _
    by_cases hx : x ∈ ks
    · simp [hx]
    · have hxc : ¬ x = c := by
        intro hxe
        subst hxe
        exact hx h
      simp [hx, hxc]
  rw [List.filter_congr hfe]
  apply List.map_congr_left
  intro x hx
  have hxc : ¬ c = x := by
    intro hce
    have hmem := (List.mem_filter.1 hx).2
    subst hce
    simp [contains_iff_mem, h] at hmem
  rw [timesForP_cons_ne _ _ hxc]

lemma newGroups_cons_not_mem {c : String} {ks : List String} (t : Int)
    (ps : List (String × Int)) (h : ¬ c ∈ ks) :
    newGroups ((c, t) :: ps) ks =
      (c, t :: timesForP ps c) :: newGroups ps (ks ++ [c]) := by
  unfold newGroups
  rw [keysP_cons]
  rw [List.filter_cons]
  rw [if_pos (by simp [contains_iff_mem, h])]
  rw [List.filter_filter]
  have hfe : ∀ x ∈ keysP ps,
      (decide (¬ ks.contains x = true) && decide (¬ x = c)) =
        decide (¬ (ks ++ [c]).contains x = true) := by
    intro x _
    by_cases hx : x = c
    · subst hx
      simp
    · by_cases hk : x ∈ ks
      · simp [hx, hk]
      · simp [hx, hk]
  rw [List.filter_congr hfe]
  simp only [List.map_cons]
  congr 1
  · rw [timesForP_cons_eq]
  · apply List.map_congr_left
    intro x hx
    have hxc : ¬ c = x := by
      intro hce
      have hmem := (List.mem_filter.1 hx).2
      subst hce
      simp [contains_iff_mem] at hmem
    rw [timesForP_cons_ne _ _ hxc]

lemma convLoopP_closed (ps : List (String × Int)) :
    ∀ A : List (String × List Int), (A.map Prod.fst).Nodup →
      convLoopP ps A = A.map (extBy ps) ++ newGroups ps (A.map Prod.fst) := by
  induction ps with
  | nil =>
    intro A _
    have h1 : A.map (extBy []) = A := by
      have hcong : A.map (extBy []) = A.map id :=
        List.map_congr_left (fun kv _ => by
          unfold extBy timesForP
          simp)
      rw [hcong, List.map_id]
    have h2 : newGroups [] (A.map Prod.fst) = [] := by
      unfold newGroups keysP firstKeys
      simp
    rw [h1, h2, List.append_nil]
    rfl
  | cons p ps ih =>
    intro A hnd
    obtain ⟨c, t⟩ := p
    have hstep : convLoopP ((c, t) :: ps) A = convLoopP ps (addTime A c t) := rfl
    rw [hstep]
    by_cases hmem : c ∈ A.map Prod.fst
    · have hkeys : (addTime A c t).map Prod.fst = A.map Prod.fst :=
        addTime_map_fst_mem t hmem
      rw [ih (addTime A c t) (hkeys ▸ hnd), hkeys,
        addTime_map_ext t ps hnd hmem, newGroups_cons_mem t ps hmem]
    · have hadd : addTime A c t = A ++ [(c, [t])] := addTime_not_mem t hmem
      have hkeys : (addTime A c t).map Prod.fst = A.map Prod.fst ++ [c] := by
        rw [hadd, List.map_append]
        rfl
      have hnd2 : ((addTime A c t).map Prod.fst).Nodup := by
        rw [hkeys]
        simp [List.nodup_append, hnd, hmem]
      rw [ih (addTime A c t) hnd2, hkeys, hadd, List.map_append,
        newGroups_cons_not_mem t ps hmem]
      have hA : A.map (extBy ps) = A.map (extBy ((c, t) :: ps)) := by
        apply List.map_congr_left
        intro kv hkv
        unfold extBy
        have hne : ¬ c = kv.1 := by
          intro hce
          exact hmem (hce ▸ List.mem_map_of_mem Prod.fst hkv)
        rw [timesForP_cons_ne _ _ hne]
      have hone : [(c, [t])].map (extBy ps) = [(c, t :: timesForP ps c)] := by
        unfold extBy
        simp
      rw [hA, hone, List.append_assoc]
      rfl

lemma conv_fold_specGroups (rs : List Entry) :
    (rs.foldl engStep ⟨[], [], [], 0, 0, 0⟩).convTimes = specGroups rs := by
  rw [eng_foldl_convTimes]
  have h := convLoopP_closed (qualPairs rs) [] (by simp)
  simp only [List.map_nil, List.nil_append] at h
  rw [h]
  unfold newGroups specGroups
  have hfilter : ((keysP (qualPairs rs)).filter (fun c => ¬ ([] : List String).contains c))
      = keysP (qualPairs rs) := by
    apply List.filter_eq_self.2
    intro c _
    simp
  rw [hfilter]
  rfl

lemma length_insertSorted (x : Int) (l : List Int) :
    (insertSorted x l).length = l.length + 1 := by
  induction l with
  | nil => rfl
  | cons y ys ih =>
    unfold insertSorted
    by_cases h : x ≤ y
    · rw [if_pos h]
      rfl
    · rw [if_neg h]
      simp [ih]

lemma length_sortTimes (l : List Int) : (sortTimes l).length = l.length := by
  induction l with
  | nil => rfl
  | cons x xs ih =>
    unfold sortTimes at ih ⊢
    rw [List.foldr_cons, length_insertSorted, ih]
    rfl

lemma gapsOf_eq (v : List Int) : gapsOf v = consecDiffs (sortTimes v) := by
  unfold gapsOf
  by_cases h : 2 ≤ v.length
  · rw [if_pos h]
  · rw [if_neg h]
    have hlen : (sortTimes v).length ≤ 1 := by
      rw [length_sortTimes]
      omega
    cases hs : sortTimes v with
    | nil => rfl
    | cons a tail =>
      cases tail with
      | nil => rfl
      | cons b r =>
        rw [hs] at hlen
        simp at hlen

lemma responseGaps_eq_specGaps (rs : List Entry) :
    responseGapsOf ((rs.foldl engStep ⟨[], [], [], 0, 0, 0⟩).convTimes) = specGaps rs := by
  rw [conv_fold_specGroups]
  unfold responseGapsOf specGaps
  congr 1
  apply List.map_congr_left
  intro kv _
  exact gapsOf_eq kv.2

lemma eng_avg_spec (rs : List Entry) :
    (calculate_engagement_metrics rs).averageResponseTime =
      (match specAvgGapExact rs with
       | some q => some (round2 q)
       | none => none) := by
  unfold calculate_engagement_metrics specAvgGapExact
  simp only [responseGaps_eq_specGaps]
  by_cases h : specGaps rs = []
  · simp [h]
  · simp [h]

lemma sortTimes_three (t : Int) :
    sortTimes [t + 600, t, t + 300] = [t, t + 300, t + 600] := by
  simp [sortTimes, insertSorted, show t ≤ t + 300 by omega,
    show ¬ (t + 600 ≤ t) by omega, show ¬ (t + 600 ≤ t + 300) by omega]

lemma specGaps_three (t : Int) :
    specGaps [gapEntry "conv1" (t + 600), gapEntry "conv1" t, gapEntry "conv1" (t + 300)]
      = [300, 300] := by
  have hq : qualPairs [gapEntry "conv1" (t + 600), gapEntry "conv1" t,
      gapEntry "conv1" (t + 300)] = [("conv1", t + 600), ("conv1", t), ("conv1", t + 300)] := by
    simp +decide [qualPairs, entryTimePair, gapEntry, tsTruthy, timeObjOf]
  unfold specGaps specGroups specKeys timesFor
  rw [hq]
  simp only [List.map_cons, List.map_nil]
  rw [show firstKeys ["conv1", "conv1", "conv1"] = ["conv1"] from by decide]
  simp only [List.map_cons, List.map_nil, List.filterMap_cons]
  norm_num
  rw [sortTimes_three]
  simp [consecDiffs]

lemma round2_cast_int (n : Int) : round2 ((n : ℚ)) = (n : ℚ) := by
  unfold round2 roundHalfEven
  have h1 : ((n : ℚ) * 100) = ((n * 100 : Int) : ℚ) := by push_cast; ring
  rw [h1, Int.floor_intCast]
  rw [if_pos (by norm_num)]
  push_cast
  ring

/-- C3 (amended): `calculate_engagement_metrics` groups non-error records
by conversation id, sorts each group's parseable timestamps ascending,
computes consecutive gaps in seconds, and reports the average over all
gaps across all conversations rounded to 2 decimal places (Python
`round(x, 2)`); the average is absent (`None`) exactly when zero gaps were
observed.  In particular three messages of one conversation at t, t+5min,
t+10min (supplied out of order, exercising the sort) yield exactly 300.0,
and a single timestamped message yields an absent average.  `specGaps` /
`specAvgGapExact` restate the grouping pipeline independently of the
fold-based implementation. -/
theorem claim_C3_engagement_average_gap :
    (∀ rs : List Entry,
      ((calculate_engagement_metrics rs).averageResponseTime = none ↔ specGaps rs = [])) ∧
    (∀ rs : List Entry, (calculate_engagement_metrics rs).averageResponseTime =
      (match specAvgGapExact rs with
       | some q => some (round2 q)
       | none => none)) ∧
    (∀ t : Int, (calculate_engagement_metrics
      [gapEntry "conv1" (t + 600), gapEntry "conv1" t,
       gapEntry "conv1" (t + 300)]).averageResponseTime = some 300) ∧
    (∀ t : Int,
      (calculate_engagement_metrics [gapEntry "conv1" t]).averageResponseTime = none) := by
  have hmain : ∀ rs : List Entry, (calculate_engagement_metrics rs).averageResponseTime =
      (match specAvgGapExact rs with
       | some q => some (round2 q)
       | none => none) := eng_avg_spec
  refine ⟨?_, hmain, ?_, ?_⟩
  · intro rs
    rw [hmain rs]
    unfold specAvgGapExact
    by_cases h : specGaps rs = []
    · simp [h]
    · simp [h]
  · intro t
    rw [hmain]
    unfold specAvgGapExact
    rw [specGaps_three]
    rw [if_neg (by simp : ¬ ([300, 300] : List ℚ) = [])]
    norm_num [round2, roundHalfEven]
  · intro t
    rw [hmain]
    unfold specAvgGapExact
    have h1 : specGaps [gapEntry "conv1" t] = [] := by
      simp +decide [specGaps, specGroups, specKeys, timesFor, qualPairs, entryTimePair,
        gapEntry, tsTruthy, timeObjOf, firstKeys, sortTimes, insertSorted, consecDiffs]
    simp [h1]

/-- Counterexample to C3 as stated: one conversation with timestamps at
seconds 0, 1, 2, 4 has gaps [1, 1, 2] whose average is 4/3, but the
aggregator reports `round(4/3, 2) = 1.33 ≠ 4/3` — the reported value is
the 2-decimal rounding of the average, not the average itself. -/
theorem claim_C3_counterexample :
    (calculate_engagement_metrics
      [gapEntry "conv1" 0, gapEntry "conv1" 1, gapEntry "conv1" 2,
       gapEntry "conv1" 4]).averageResponseTime = some (133/100) ∧
    specGaps [gapEntry "conv1" 0, gapEntry "conv1" 1, gapEntry "conv1" 2,
      gapEntry "conv1" 4] = [1, 1, 2] ∧
    ((133 : ℚ)/100) ≠ ((1 : ℚ) + 1 + 2) / 3 := by
  have hgaps : specGaps [gapEntry "conv1" 0, gapEntry "conv1" 1, gapEntry "conv1" 2,
      gapEntry "conv1" 4] = [1, 1, 2] := by
    norm_num +decide [specGaps, specGroups, specKeys, timesFor, qualPairs, entryTimePair,
      gapEntry, tsTruthy, timeObjOf, firstKeys, sortTimes, insertSorted, consecDiffs]
  refine ⟨?_, hgaps, by norm_num⟩
  rw [eng_avg_spec]
  unfold specAvgGapExact
  rw [hgaps]
  rw [if_neg (by simp : ¬ ([1, 1, 2] : List ℚ) = [])]
  norm_num [round2, roundHalfEven]

lemma avgOf_specStyle (rs : List Entry) :
    avgOf (specStyleScores rs) = specAvgStyleRounded rs := by
  unfold avgOf specAvgStyleRounded specAvgStyleExact
  by_cases h : specStyleScores rs = []
  · simp [h]
  · simp [h]

lemma eng_suggestions_spec (rs : List Entry) :
    (calculate_engagement_metrics rs).suggestions =
      (if specAvgStyleRounded rs < 40 then [sugClarity] else []) ++
      ((if 0 < specFormCount rs "formal" + specFormCount rs "informal" ∧
          ((specFormCount rs "formal" : ℚ) * (3/2) < (specFormCount rs "informal" : ℚ))
        then [sugFormality] else []) ++
      (match specAvgGapExact rs with
       | some q => if (3600 : ℚ) < round2 q then [sugPromptness] else []
       | none => [])) := by
  unfold calculate_engagement_metrics
  simp only [eng_foldl_styleScores, eng_foldl_formFormal, eng_foldl_formInformal,
    responseGaps_eq_specGaps, List.nil_append, Nat.zero_add]
  rw [avgOf_specStyle]
  unfold specAvgGapExact
  by_cases h : specGaps rs = []
  · simp [h]
  · simp [h]

lemma specStyleScores_single (q : ℚ) : specStyleScores [scoreEntry q] = [q] := by
  simp [specStyleScores, scoreEntry]

lemma specStyleScores_pair (a b : ℚ) :
    specStyleScores [scoreEntry a, scoreEntry b] = [a, b] := by
  simp [specStyleScores, scoreEntry]

/-- C4 (amended): the suggestions are produced by three rules evaluated
independently with all applicable ones included, in this order, where the
averages compared are the aggregator's 2-decimal-rounded averages: the
clarity suggestion appears iff the rounded average style score is < 40
(an average of 30 triggers it, an average of 50 does not); the formality
suggestion iff `(formal+informal) > 0` and `informal > formal * 1.5`; the
promptness suggestion iff the (rounded) average response gap is present
and > 3600 seconds. -/
theorem claim_C4_suggestion_rules :
    (∀ rs : List Entry, (calculate_engagement_metrics rs).suggestions =
      (if specAvgStyleRounded rs < 40 then [sugClarity] else []) ++
      ((if 0 < specFormCount rs "formal" + specFormCount rs "informal" ∧
          ((specFormCount rs "formal" : ℚ) * (3/2) < (specFormCount rs "informal" : ℚ))
        then [sugFormality] else []) ++
      (match specAvgGapExact rs with
       | some q => if (3600 : ℚ) < round2 q then [sugPromptness] else []
       | none => []))) ∧
    (calculate_engagement_metrics [scoreEntry 30]).suggestions = [sugClarity] ∧
    (calculate_engagement_metrics [scoreEntry 50]).suggestions = [] := by
  refine ⟨eng_suggestions_spec, ?_, ?_⟩
  · rw [eng_suggestions_spec]
    have h1 : specAvgStyleRounded [scoreEntry 30] = 30 := by
      unfold specAvgStyleRounded specAvgStyleExact
      rw [specStyleScores_single, if_neg (List.cons_ne_nil _ _), if_neg (List.cons_ne_nil _ _)]
      norm_num [round2, roundHalfEven]
    have h2 : specFormCount [scoreEntry 30] "formal" = 0 := by
      norm_num +decide [specFormCount, scoreEntry, formTag]
    have h3 : specFormCount [scoreEntry 30] "informal" = 0 := by
      norm_num +decide [specFormCount, scoreEntry, formTag]
    have h4 : specAvgGapExact [scoreEntry 30] = none := by
      norm_num +decide [specAvgGapExact, specGaps, specGroups, specKeys, timesFor,
        qualPairs, entryTimePair, scoreEntry, firstKeys]
    rw [h1, h2, h3, h4]
    norm_num
  · rw [eng_suggestions_spec]
    have h1 : specAvgStyleRounded [scoreEntry 50] = 50 := by
      unfold specAvgStyleRounded specAvgStyleExact
      rw [specStyleScores_single, if_neg (List.cons_ne_nil _ _), if_neg (List.cons_ne_nil _ _)]
      norm_num [round2, roundHalfEven]
    have h2 : specFormCount [scoreEntry 50] "formal" = 0 := by
      norm_num +decide [specFormCount, scoreEntry, formTag]
    have h3 : specFormCount [scoreEntry 50] "informal" = 0 := by
      norm_num +decide [specFormCount, scoreEntry, formTag]
    have h4 : specAvgGapExact [scoreEntry 50] = none := by
      norm_num +decide [specAvgGapExact, specGaps, specGroups, specKeys, timesFor,
        qualPairs, entryTimePair, scoreEntry, firstKeys]
    rw [h1, h2, h3, h4]
    norm_num

/-- Counterexample to C4 as stated: for the batch with style scores 39.99
and 40.00 the (exact) average style score is 39.995 < 40, yet the clarity
suggestion does not appear — the code compares the 2-decimal-rounded
average `round(39.995, 2) = 40.0`, which is not `< 40`. -/
theorem claim_C4_counterexample :
    specAvgStyleExact [scoreEntry (3999/100), scoreEntry 40] < 40 ∧
    ¬ sugClarity ∈ (calculate_engagement_metrics
        [scoreEntry (3999/100), scoreEntry 40]).suggestions := by
  constructor
  · unfold specAvgStyleExact
    rw [specStyleScores_pair, if_neg (List.cons_ne_nil _ _)]
    norm_num
  · rw [eng_suggestions_spec]
    have h1 : specAvgStyleRounded [scoreEntry (3999/100), scoreEntry 40] = 40 := by
      unfold specAvgStyleRounded specAvgStyleExact
      rw [specStyleScores_pair, if_neg (List.cons_ne_nil _ _), if_neg (List.cons_ne_nil _ _)]
      norm_num [round2, roundHalfEven]
    have h2 : specFormCount [scoreEntry (3999/100), scoreEntry 40] "formal" = 0 := by
      norm_num +decide [specFormCount, scoreEntry, formTag]
    have h3 : specFormCount [scoreEntry (3999/100), scoreEntry 40] "informal" = 0 := by
      norm_num +decide [specFormCount, scoreEntry, formTag]
    have h4 : specAvgGapExact [scoreEntry (3999/100), scoreEntry 40] = none := by
      norm_num +decide [specAvgGapExact, specGaps, specGroups, specKeys, timesFor,
        qualPairs, entryTimePair, scoreEntry, firstKeys]
    rw [h1, h2, h3, h4]
    norm_num

lemma engStep_err {st : EState} {e : Entry} (h : e.error.isSome = true) :
    engStep st e = st := by
  unfold engStep
  rw [if_pos h]

lemma foldl_skip_err {σ : Type} (f : σ → Entry → σ)
    (hf : ∀ s e, e.error.isSome = true → f s e = s) (rs : List Entry) :
    ∀ s : σ, rs.foldl f s = (rs.filter (fun e => ¬ e.error.isSome)).foldl f s := by
  induction rs with
  | nil =>
    intro s
    rfl
  | cons e rs ih =>
    intro s
    by_cases h : e.error.isSome = true
    · rw [List.foldl_cons, hf s e h, List.filter_cons, if_neg (by simp [h]), ih]
    · rw [List.filter_cons, if_pos (by simp [h]), List.foldl_cons, List.foldl_cons, ih]

lemma all_err_filter_nil {rs : List Entry} (h : ∀ e ∈ rs, e.error.isSome = true) :
    rs.filter (fun e => ¬ e.error.isSome) = [] := by
  induction rs with
  | nil => rfl
  | cons e rs ih =>
    rw [List.filter_cons, if_neg (by simp [h e (List.mem_cons_self e rs)])]
    exact ih (fun x hx => h x (List.mem_cons_of_mem e hx))

lemma content_metrics_nil : calculate_content_metrics [] = ⟨0, 0, 0, 0, 0, 0, 0, 0, 0, 0⟩ := by
  rfl

lemma engagement_metrics_nil :
    calculate_engagement_metrics [] = ⟨[], none, [sugClarity], 0, 0, 0⟩ := by
  rw [eq_comm]
  unfold calculate_engagement_metrics
  simp only [List.foldl_nil]
  norm_num [responseGapsOf, avgOf]

/-- C9 (amended): both aggregator functions exclude every record carrying
an error field (their results over a batch equal their results over the
batch with error records filtered out), and for a batch containing only
error records they do not fail and produce all-zero/default metrics:
total 0, all tallies 0, average style score 0.0, sender table empty,
average response gap absent — and the suggestions list containing exactly
the clarity suggestion, which the default 0.0 average style score
(being < 40) triggers. -/
theorem claim_C9_error_records_excluded :
    (∀ rs : List Entry,
      calculate_content_metrics rs =
          calculate_content_metrics (rs.filter (fun e => ¬ e.error.isSome)) ∧
        calculate_engagement_metrics rs =
          calculate_engagement_metrics (rs.filter (fun e => ¬ e.error.isSome))) ∧
    (∀ rs : List Entry, (∀ e ∈ rs, e.error.isSome = true) →
      calculate_content_metrics rs = ⟨0, 0, 0, 0, 0, 0, 0, 0, 0, 0⟩ ∧
        calculate_engagement_metrics rs = ⟨[], none, [sugClarity], 0, 0, 0⟩) := by
  have hpart1 : ∀ rs : List Entry,
      calculate_content_metrics rs =
          calculate_content_metrics (rs.filter (fun e => ¬ e.error.isSome)) ∧
        calculate_engagement_metrics rs =
          calculate_engagement_metrics (rs.filter (fun e => ¬ e.error.isSome)) := by
    intro rs
    constructor
    · unfold calculate_content_metrics
      rw [foldl_skip_err contentStep (fun _ _ h => contentStep_err h) rs]
    · unfold calculate_engagement_metrics
      rw [foldl_skip_err engStep (fun _ _ h => engStep_err h) rs]
  refine ⟨hpart1, ?_⟩
  intro rs h
  have hnil := all_err_filter_nil h
  obtain ⟨h1, h2⟩ := hpart1 rs
  rw [hnil] at h1 h2
  rw [h1, h2, content_metrics_nil, engagement_metrics_nil]
  exact ⟨rfl, rfl⟩

/-- Witness for C9 (amended) at the concrete one-element all-error batch. -/
theorem claim_C9_witness :
    (∀ e ∈ [errEntry], e.error.isSome = true) ∧
      calculate_content_metrics [errEntry] = ⟨0, 0, 0, 0, 0, 0, 0, 0, 0, 0⟩ ∧
      calculate_engagement_metrics [errEntry] = ⟨[], none, [sugClarity], 0, 0, 0⟩ := by
  have h : ∀ e ∈ [errEntry], e.error.isSome = true := by decide
  obtain ⟨h1, h2⟩ := claim_C9_error_records_excluded.2 [errEntry] h
  exact ⟨h, h1, h2⟩

/-- Counterexample to C9 as stated: for the batch containing only an
error record the suggestions list is not empty — the aggregator's default
0.0 average style score is below the 40 threshold, so the clarity
suggestion is emitted. -/
theorem claim_C9_counterexample :
    (calculate_engagement_metrics [errEntry]).suggestions
        = ["Improve clarity and structure in messages."] ∧
      ¬ (calculate_engagement_metrics [errEntry]).suggestions = [] := by
  have h : ∀ e ∈ [errEntry], e.error.isSome = true := by decide
  have hnil := all_err_filter_nil h
  have hstep : calculate_engagement_metrics [errEntry] =
      calculate_engagement_metrics [] := by
    unfold calculate_engagement_metrics
    rw [foldl_skip_err engStep (fun _ _ hh => engStep_err hh) [errEntry], hnil]
  rw [hstep, engagement_metrics_nil]
  exact ⟨rfl, by simp [sugClarity]⟩
